import Mathlib

/-!
# Gunnebo reader unit

A shallow embedding of `gunneboreaderunit.cpp` (liblogicalaccess, Gunnebo reader
provider): the identifier normalizer `processCardId`, the presence pollers
`waitInsertion` / `waitRemoval`, the port configurator `configure`, the
auto-detector `startAutoDetect` and `connectToReader`.

Conventions of the embedding

* `std::vector<unsigned char>` is a list of byte values (`ByteVector`).
* `unsigned int` / `unsigned long long` are natural numbers reduced modulo
  `2^32` / `2^64` where the source can overflow.
* C++ exceptions are explicit outcomes; the reader object and the `Settings`
  singleton are one explicit state record (`Reader`) threaded through the calls.
* Collaborators that live outside the file (the card adapter, the chip factory,
  the serial port, `formatHexString`) are fields of an environment record `Env`.
* The `do ... while` loops take a bound on the number of iterations (`fuel`);
  `none` means the bound was reached before the loop left.
-/

namespace Gunnebo

/-! ## Basic data -/

/-- A `std::vector<unsigned char>`: the list of its byte values. -/
abbrev ByteVector := List Nat

/-- The exception classes the source distinguishes in its `catch` clauses. -/
inductive Exc
  | libLogicalAccess   -- LibLogicalAccessException, a std::exception
  | stdException       -- any other class derived from std::exception
  | unknown            -- anything else, only caught by `catch (...)`
deriving DecidableEq, Repr

/-- Whether `catch (std::exception&)` catches the exception. -/
def Exc.isStd : Exc → Bool
  | .unknown => false
  | _ => true

/-- How a call ends: it returns a value or an exception leaves it. -/
inductive Outcome (α : Type)
  | returned (a : α)
  | thrown (e : Exc)
deriving DecidableEq, Repr

/-! ## Identifier normalizer -/

/-- The helper `BufferHelper::getStdString`: the bytes read as the characters of a `std::string`. -/
def getStdString (buf : ByteVector) : String :=
  String.mk (buf.map Char.ofNat)

/-- Modelled from the spec: `atoull`, the helper that parses the ASCII decimal digits of a
string as an unsigned 64-bit integer and "fails silently to zero on non-numeric garbage"
(its body is not part of `gunneboreaderunit.cpp`). A string of decimal digits yields its
value, kept in 64 bits; any other string yields zero. -/
def atoull (str : String) : Nat :=
  if str.toList.all Char.isDigit then
    (str.toList.foldl (fun n c => 10 * n + (c.toNat - 48)) 0) % 2 ^ 64
  else 0

/-- The effect of `sprintf(bufTmpId, "%012llx", l)`: lowercase hexadecimal, padded on the left
with zeros to a minimum width of twelve characters. -/
def sprintf_012llx (l : Nat) : String :=
  let digits := Nat.toDigits 16 l
  String.mk (List.replicate (12 - digits.length) '0' ++ digits)

/-- Source function `GunneboReaderUnit::processCardId`, lines 242-261. `formatHexString` is a helper of the
library that is not defined in this file. -/
def processCardId (formatHexString : String → ByteVector) (rawSerialData : ByteVector) :
    ByteVector :=
  if rawSerialData.length > 0 then
    let l := atoull (getStdString rawSerialData)
    let bufTmpId := sprintf_012llx l
    formatHexString bufTmpId
  else []

/-- The number written by a list of ASCII decimal digits, most significant digit first. -/
def decimalValue (digits : ByteVector) : Nat :=
  Nat.ofDigits 10 (digits.reverse.map (fun b => b - 48))

/-- A sample `formatHexString` for concrete evaluations: every pair of hexadecimal characters
becomes one byte. -/
def hexPairsToBytes (s : String) : ByteVector :=
  let nibble : Char → Nat := fun c =>
    if c.isDigit then c.toNat - 48 else (c.toNat - 97 + 10) % 16
  let rec go : List Char → ByteVector
    | a :: b :: rest => (16 * nibble a + nibble b) :: go rest
    | _ => []
  go s.toList

/-! ## State of the reader and its collaborators -/

/-- The fields of the `Settings` singleton that the file reads or writes. -/
structure Settings where
  IsLogEnabled : Bool
  SeeWaitInsertionLog : Bool
  SeeWaitRemovalLog : Bool
  IsAutoDetectEnabled : Bool
  IsConfigurationRetryEnabled : Bool
  ConfigurationRetryTimeout : Nat
  AutoDetectionTimeout : Nat
deriving DecidableEq, Repr

/-- A chip object: its card type and the identifier `getChipIdentifier()` returns. -/
structure Chip where
  cardType : String
  identifier : ByteVector
deriving DecidableEq, Repr

/-- The serial port behind a `SerialPortXml`: device name, open flag, and whether the line
settings of `configure` (9600 baud, 8 data bits, no parity, 1 stop bit, no flow control, raw
mode) are its live configuration. -/
structure SerialPort where
  deviceName : String
  isOpen : Bool
  lineConfigured : Bool
deriving DecidableEq, Repr

/-- What the file does to a serial port object, recorded in call order. -/
inductive PortOp
  | opened (port : Nat)
  | closed (port : Nat)
  | reopened (port : Nat)
  | settingsApplied (port : Nat)
  | probed (port : Nat)
  | backoff (ms : Nat)
deriving DecidableEq, Repr

/-- What `sendCommand` of the card adapter does: it returns the bytes read (maybe none) or an
exception leaves it. -/
inductive ProbeOutcome
  | reply (bytes : ByteVector)
  | raises (e : Exc)
deriving DecidableEq, Repr

/-- What `ReaderUnit::createChip(type, identifier)` does: it returns a chip or an exception
leaves it. -/
inductive CreateOutcome
  | created
  | raises (e : Exc)
deriving DecidableEq, Repr

/-- The reader unit together with the `Settings` singleton and the port objects it can reach.
Port objects (`boost::shared_ptr<SerialPortXml>`) are referenced by number; `ports` gives the
object behind a reference and `nextPort` is the first unused reference. The last five fields
record what the calls did to the outside world. -/
structure Reader where
  settings : Settings
  ports : Nat → SerialPort
  nextPort : Nat
  d_port : Option Nat
  d_isAutoDetected : Bool
  d_card_type : String
  d_insertedChip : Option Chip
  removalIdentifier : ByteVector
  probesSent : Nat
  ticks : Nat
  createCalls : List (String × ByteVector)
  settingsCalls : Nat
  portOps : List PortOp

/-- The collaborators of the reader unit.
* `formatHexString`: library helper used by `processCardId`.
* `sendCommand n`: what the card adapter of the reader answers to the probe sent after `n`
  earlier probes.
* `createChip type identifier`: whether the chip factory of the base class succeeds.
* `enumerate`: `SerialPortXml::EnumerateUsingCreateFile`, its result flag and the device names
  of the ports it lists.
* `openPort`, `reopenPort`: the exception, if any, `open()` / `reopen()` raise for a device.
* `setConfiguration n device`: the exception, if any, raised when line settings are applied
  to the device, `n` being the number of earlier applications (`settingsCalls`).
* `detectCommand device`: the answer of a candidate port to the probe of the auto-detector,
  within `AutoDetectionTimeout`. -/
structure Env where
  formatHexString : String → ByteVector
  sendCommand : Nat → ProbeOutcome
  createChip : String → ByteVector → CreateOutcome
  enumerate : Bool × List String
  openPort : String → Option Exc
  reopenPort : String → Option Exc
  setConfiguration : Nat → String → Option Exc
  detectCommand : String → ProbeOutcome

/-- Assignment to `Settings::getInstance().IsLogEnabled`. -/
def setLogEnabled (s : Reader) (b : Bool) : Reader :=
  { s with settings := { s.settings with IsLogEnabled := b } }

/-- Lines 100-104 and 176-180: logging is switched off for the poll loop when it is on and
the override `see` (`SeeWaitInsertionLog` / `SeeWaitRemovalLog`) is not set. -/
def suppressLog (see : Bool) (s : Reader) : Reader :=
  if s.settings.IsLogEnabled && !see then setLogEnabled s false else s

/-- The type label passed to the chip factory, line 139:
`d_card_type == "UNKNOWN" ? "GenericTag" : d_card_type`. -/
def chipType (s : Reader) : String :=
  if s.d_card_type = "UNKNOWN" then "GenericTag" else s.d_card_type

/-- Source function `GunneboReaderUnit::isConnected`. -/
def isConnected (s : Reader) : Bool :=
  s.d_insertedChip.isSome

/-- Source function `GunneboReaderUnit::getChipList`. -/
def getChipList (s : Reader) : List Chip :=
  match s.d_insertedChip with
  | some chip => [chip]
  | none => []

/-! ## Presence poller -/

/-- How the inner `try` block of a poll cycle ends: it ran to its end, a `std::exception` was
caught by the empty handler, or another exception went through. -/
inductive TryEnd
  | completed
  | swallowed
  | escaped (e : Exc)
deriving DecidableEq, Repr

/-- Where an exception raised inside the inner `try` block goes. -/
def TryEnd.ofExc (e : Exc) : TryEnd :=
  if e.isStd then .swallowed else .escaped e

/-- Modelled from the spec: the chip that `ReaderUnit::createChip(type, identifier)` of the base
class returns when it succeeds (`createChip(typeLabel, identifierBytes) -> Chip`); the body of
the factory is not in this file. The chip has the given type and carries the identifier. -/
def createdChip (type : String) (identifier : ByteVector) : Chip :=
  { cardType := type, identifier := identifier }

/-- The chip-creation step of a cycle of `waitInsertion`, lines 137-142, with the current
values of `createChipId` and of the reader. Returns how the `try` block ends, `inserted`, and
the reader. -/
def insertionCreate (env : Env) (createChipId : ByteVector) (s : Reader) :
    TryEnd × Bool × Reader :=
  if createChipId.length > 0 then
    let s1 := { s with createCalls := s.createCalls ++ [(chipType s, createChipId)] }
    match env.createChip (chipType s) createChipId with
    | .created =>
      (.completed, true, { s1 with d_insertedChip := some (createdChip (chipType s) createChipId) })
    | .raises e => (TryEnd.ofExc e, false, s1)
  else (.completed, false, s)

/-- The inner `try` block of a cycle of `waitInsertion`, lines 118-147. Returns how the block
ends, the new values of `createChipId` and `inserted`, and the reader. -/
def insertionTry (env : Env) (createChipId : ByteVector) (s : Reader) :
    TryEnd × ByteVector × Bool × Reader :=
  if s.removalIdentifier.length > 0 then
    let r := insertionCreate env s.removalIdentifier s
    (r.1, s.removalIdentifier, r.2.1, r.2.2)
  else
    let s1 := { s with probesSent := s.probesSent + 1 }
    match env.sendCommand s.probesSent with
    | .raises e => (TryEnd.ofExc e, createChipId, false, s1)
    | .reply tmpASCIIId =>
      let createChipId1 :=
        if tmpASCIIId.length > 0 then processCardId env.formatHexString tmpASCIIId
        else createChipId
      let r := insertionCreate env createChipId1 s1
      (r.1, createChipId1, r.2.1, r.2.2)

/-- The `do ... while` loop of `waitInsertion`, lines 116-158, run for at most `fuel` cycles
from the given values of `createChipId` and `currentWait`. `currentWait` is an
`unsigned int`. The result is `none` when the loop is still running after `fuel` cycles. -/
def insertionLoop (env : Env) (maxwait : Nat) :
    Nat → ByteVector → Nat → Reader → Option (Outcome Bool × Reader)
  | 0, _, _, _ => none
  | fuel + 1, createChipId, currentWait, s =>
    match insertionTry env createChipId s with
    | (.escaped e, _, _, s1) => some (.thrown e, s1)
    | (_, _, true, s1) => some (.returned true, s1)
    | (_, createChipId1, false, s1) =>
      let s2 := { s1 with ticks := s1.ticks + 1 }
      let currentWait1 := (currentWait + 500) % 2 ^ 32
      if maxwait = 0 ∨ currentWait1 < maxwait then
        insertionLoop env maxwait fuel createChipId1 currentWait1 s2
      else some (.returned false, s2)

/-- Source function `GunneboReaderUnit::waitInsertion`, lines 98-172. -/
def waitInsertion (env : Env) (maxwait : Nat) (fuel : Nat) (s : Reader) :
    Option (Outcome Bool × Reader) :=
  let oldValue := s.settings.IsLogEnabled
  let s0 := suppressLog s.settings.SeeWaitInsertionLog s
  match insertionLoop env maxwait fuel [] 0 s0 with
  | none => none
  | some (.thrown e, s1) => some (.thrown e, setLogEnabled s1 oldValue)
  | some (.returned inserted, s1) =>
    some (.returned inserted, setLogEnabled { s1 with removalIdentifier := [] } oldValue)

/-- The inner `try` block of a cycle of `waitRemoval`, lines 194-215. `chip` is the object
behind `d_insertedChip`, which is not null inside the loop. Returns how the block ends,
`removed`, and the reader. -/
def removalTry (env : Env) (chip : Chip) (s : Reader) : TryEnd × Bool × Reader :=
  let s1 := { s with probesSent := s.probesSent + 1 }
  match env.sendCommand s.probesSent with
  | .raises e => (TryEnd.ofExc e, false, s1)
  | .reply buf =>
    if buf.length > 0 then
      let tmpId := processCardId env.formatHexString buf
      if tmpId.length > 0 ∧ tmpId ≠ chip.identifier then
        (.completed, true, { s1 with d_insertedChip := none, removalIdentifier := tmpId })
      else (.completed, false, s1)
    else (.completed, false, s1)

/-- The `do ... while` loop of `waitRemoval`, lines 192-226. -/
def removalLoop (env : Env) (maxwait : Nat) (chip : Chip) :
    Nat → Nat → Reader → Option (Outcome Bool × Reader)
  | 0, _, _ => none
  | fuel + 1, currentWait, s =>
    match removalTry env chip s with
    | (.escaped e, _, s1) => some (.thrown e, s1)
    | (_, true, s1) => some (.returned true, s1)
    | (_, false, s1) =>
      let s2 := { s1 with ticks := s1.ticks + 1 }
      let currentWait1 := (currentWait + 500) % 2 ^ 32
      if maxwait = 0 ∨ currentWait1 < maxwait then
        removalLoop env maxwait chip fuel currentWait1 s2
      else some (.returned false, s2)

/-- Lines 176-185 of `waitRemoval`: the log switch, then `removalIdentifier.clear()`. -/
def removalEntry (s : Reader) : Reader :=
  { suppressLog s.settings.SeeWaitRemovalLog s with removalIdentifier := [] }

/-- Source function `GunneboReaderUnit::waitRemoval`, lines 174-240. -/
def waitRemoval (env : Env) (maxwait : Nat) (fuel : Nat) (s : Reader) :
    Option (Outcome Bool × Reader) :=
  let oldValue := s.settings.IsLogEnabled
  let s1 := removalEntry s
  match s1.d_insertedChip with
  | none => some (.returned false, setLogEnabled s1 oldValue)
  | some chip =>
    match removalLoop env maxwait chip fuel 0 s1 with
    | none => none
    | some (.thrown e, s2) => some (.thrown e, setLogEnabled s2 oldValue)
    | some (.returned removed, s2) => some (.returned removed, setLogEnabled s2 oldValue)

/-- The result of `waitInsertion` from the result of its loop: the pending identifier is
cleared on a normal return only, the log flag is restored always. -/
def insertionExit (oldValue : Bool) (r : Outcome Bool × Reader) : Outcome Bool × Reader :=
  match r with
  | (.thrown e, s1) => (.thrown e, setLogEnabled s1 oldValue)
  | (.returned inserted, s1) =>
    (.returned inserted, setLogEnabled { s1 with removalIdentifier := [] } oldValue)

/-! ## Serial port primitives -/

/-- Replace the port object behind reference `r`. -/
def setPort (s : Reader) (r : Nat) (p : SerialPort) : Reader :=
  { s with ports := fun k => if k = r then p else s.ports k }

/-- Modelled from the spec: `open()` of the serial transport, whose body is not in this file.
The call either raises (the port stays as it was) or leaves the port open. -/
def portOpen (env : Env) (r : Nat) (s : Reader) : Outcome Unit × Reader :=
  let s1 := { s with portOps := s.portOps ++ [.opened r] }
  match env.openPort (s.ports r).deviceName with
  | some e => (.thrown e, s1)
  | none => (.returned (), setPort s1 r { s.ports r with isOpen := true })

/-- Modelled from the spec: `close()` of the serial transport; the port is closed after. -/
def portClose (r : Nat) (s : Reader) : Reader :=
  setPort { s with portOps := s.portOps ++ [.closed r] } r { s.ports r with isOpen := false }

/-- Modelled from the spec: `reopen()` of the serial transport: the port is closed and opened
again; when opening raises the port stays closed. -/
def portReopen (env : Env) (r : Nat) (s : Reader) : Outcome Unit × Reader :=
  let s1 := { s with portOps := s.portOps ++ [.reopened r] }
  match env.reopenPort (s.ports r).deviceName with
  | some e => (.thrown e, setPort s1 r { s.ports r with isOpen := false })
  | none => (.returned (), setPort s1 r { s.ports r with isOpen := true })

/-- Modelled from the spec: `setConfiguration(options)` of the serial transport with the
options built in `configure`: the call either raises or makes them the live configuration
of the port. -/
def applySettings (env : Env) (r : Nat) (s : Reader) : Outcome Unit × Reader :=
  let s1 := { s with settingsCalls := s.settingsCalls + 1,
                     portOps := s.portOps ++ [.settingsApplied r] }
  match env.setConfiguration s.settingsCalls (s.ports r).deviceName with
  | some e => (.thrown e, s1)
  | none => (.returned (), setPort s1 r { s.ports r with lineConfigured := true })

/-! ## Port configurator -/

/-- The body of `GunneboReaderUnit::configure(port, retryConfiguring)`, lines 446-531, with
the recursive call of line 528 passed as `again`. `port` is `none` for a null pointer. -/
def configureBody (env : Env) (again : Reader → Outcome Unit × Reader)
    (port : Option Nat) (retryConfiguring : Bool) (s : Reader) : Outcome Unit × Reader :=
  match port with
  | none => (.thrown .libLogicalAccess, s)
  | some r =>
    if (s.ports r).deviceName = "" then (.thrown .libLogicalAccess, s)
    else
      match applySettings env r s with
      | (.returned (), s1) => (.returned (), s1)
      | (.thrown e, s1) =>
        if e.isStd then
          if retryConfiguring then
            let s2 := { s1 with
              portOps := s1.portOps ++ [.backoff s1.settings.ConfigurationRetryTimeout] }
            match portReopen env r s2 with
            | (.thrown e2, s3) => (.thrown e2, s3)
            | (.returned (), s3) => again s3
          else (.returned (), s1)
        else (.thrown e, s1)

/-- Source function `GunneboReaderUnit::configure(port, retryConfiguring)`. The call of line 528 is
`configure(getSerialPort(), false)`, which cannot recurse further. -/
def configure (env : Env) (port : Option Nat) (retryConfiguring : Bool) (s : Reader) :
    Outcome Unit × Reader :=
  configureBody env
    (fun s1 => configureBody env (fun s2 => (.returned (), s2)) s1.d_port false s1)
    port retryConfiguring s

/-- Source function `GunneboReaderUnit::configure()`, lines 441-444. -/
def configureOwn (env : Env) (s : Reader) : Outcome Unit × Reader :=
  configure env s.d_port s.settings.IsConfigurationRetryEnabled s

/-! ## Auto-detector -/

/-- The port objects created by the enumeration, one per device name, all closed. Returns
their references, in enumeration order. -/
def allocPorts : List String → Reader → List Nat × Reader
  | [], s => ([], s)
  | name :: rest, s =>
    let r := s.nextPort
    let s1 := { setPort s r { deviceName := name, isOpen := false, lineConfigured := false }
                with nextPort := r + 1 }
    let res := allocPorts rest s1
    (r :: res.1, res.2)

/-- Lines 419-422: close the candidate when it is open. The destructor of the temporary reader
unit of line 397 does the same through `disconnectFromReader`. -/
def closeIfOpen (r : Nat) (s : Reader) : Reader :=
  if (s.ports r).isOpen then portClose r s else s

/-- One pass of the `for` loop of `startAutoDetect`, lines 391-422, on candidate `i`. Both
handlers only log. Returns `found` and the reader. -/
def detectCandidate (env : Env) (i : Nat) (s : Reader) : Bool × Reader :=
  match portOpen env i s with
  | (.thrown _, s1) => (false, closeIfOpen i s1)
  | (.returned (), s1) =>
    match configure env (some i) false s1 with
    | (.thrown _, s2) => (false, closeIfOpen i s2)
    | (.returned (), s2) =>
      let s3 := { s2 with portOps := s2.portOps ++ [.probed i] }
      match env.detectCommand (s3.ports i).deviceName with
      | .raises _ => (false, closeIfOpen i s3)
      | .reply _ => (true, closeIfOpen i { s3 with d_port := some i })

/-- The `for` loop of `startAutoDetect`, lines 389-423: it stops at the first candidate
that sets `found`. -/
def detectLoop (env : Env) : List Nat → Reader → Bool × Reader
  | [], s => (false, s)
  | i :: rest, s =>
    match detectCandidate env i s with
    | (true, s1) => (true, s1)
    | (false, s1) => detectLoop env rest s1

/-- Source function `GunneboReaderUnit::startAutoDetect`, lines 374-439. -/
def startAutoDetect (env : Env) (s : Reader) : Reader :=
  match s.d_port with
  | none => s
  | some r =>
    if (s.ports r).deviceName = "" then
      if !s.settings.IsAutoDetectEnabled then s
      else if env.enumerate.1 && !env.enumerate.2.isEmpty then
        let a := allocPorts env.enumerate.2 s
        let d := detectLoop env a.1 a.2
        if d.1 then { d.2 with d_isAutoDetected := true } else d.2
      else s
    else s

/-! ## Connection lifecycle -/

/-- Source function `GunneboReaderUnit::connectToReader`, lines 339-363. -/
def connectToReader (env : Env) (s : Reader) : Outcome Bool × Reader :=
  let s1 := startAutoDetect env s
  match s1.d_port with
  | none => (.thrown .libLogicalAccess, s1)
  | some r =>
    if (s1.ports r).deviceName = "" then (.thrown .libLogicalAccess, s1)
    else if !(s1.ports r).isOpen then
      match portOpen env r s1 with
      | (.thrown e, s2) => (.thrown e, s2)
      | (.returned (), s2) =>
        match configureOwn env s2 with
        | (.thrown e, s3) => (.thrown e, s3)
        | (.returned (), s3) => (.returned true, s3)
    else (.returned true, s1)

/-- Source function `GunneboReaderUnit::disconnectFromReader`, lines 365-372. -/
def disconnectFromReader (s : Reader) : Reader :=
  match s.d_port with
  | none => s
  | some r => closeIfOpen r s

/-! ## Sample collaborators and states for concrete evaluations -/

/-- Settings with logging enabled and no override. -/
def sampleSettings : Settings where
  IsLogEnabled := true
  SeeWaitInsertionLog := false
  SeeWaitRemovalLog := false
  IsAutoDetectEnabled := true
  IsConfigurationRetryEnabled := true
  ConfigurationRetryTimeout := 500
  AutoDetectionTimeout := 400

/-- A reader whose endpoint (port object 0) is named `COM1` and closed, with no chip. -/
def idleReader : Reader where
  settings := sampleSettings
  ports := fun _ => { deviceName := "COM1", isOpen := false, lineConfigured := false }
  nextPort := 1
  d_port := some 0
  d_isAutoDetected := false
  d_card_type := "UNKNOWN"
  d_insertedChip := none
  removalIdentifier := []
  probesSent := 0
  ticks := 0
  createCalls := []
  settingsCalls := 0
  portOps := []

/-- The reader `idleReader` with a chip of identifier `00 00 00 00 00 01` present. -/
def presentReader : Reader :=
  { idleReader with
    d_insertedChip := some { cardType := "GenericTag", identifier := [0, 0, 0, 0, 0, 1] } }

/-- The reader `presentReader` after its chip was replaced by the identifier "123". -/
def replacedReader : Reader :=
  { presentReader with
    d_insertedChip := none, removalIdentifier := [0, 0, 0, 0, 0, 123], probesSent := 1 }

/-- The reader `idleReader` after one fruitless poll cycle. -/
def polledReader : Reader :=
  { idleReader with probesSent := 1, ticks := 1 }

/-- The reader `idleReader` after the identifier "123" was read and its chip created. -/
def insertedReader : Reader :=
  { idleReader with
    d_insertedChip := some { cardType := "GenericTag", identifier := [0, 0, 0, 0, 0, 123] },
    probesSent := 1,
    createCalls := [("GenericTag", [0, 0, 0, 0, 0, 123])] }

/-- The reader `idleReader` after one probe. -/
def probedReader : Reader :=
  { idleReader with probesSent := 1 }

/-- A wire on which every probe fails with an exception that is not a `std::exception`. -/
def brokenWire : Nat → ProbeOutcome :=
  fun _ => .raises .unknown

/-- Collaborators that always succeed; the wire gives the reply `wire n` to probe `n`. -/
def envOfWire (wire : Nat → ProbeOutcome) : Env where
  formatHexString := hexPairsToBytes
  sendCommand := wire
  createChip := fun _ _ => .created
  enumerate := (true, ["COM1", "COM2", "COM3"])
  openPort := fun _ => none
  reopenPort := fun _ => none
  setConfiguration := fun _ _ => none
  detectCommand := fun _ => .raises .libLogicalAccess

/-- Collaborators of `envOfWire silentWire`, except that line settings are always rejected
with a `std::exception`. -/
def rejectingEnv : Env :=
  { envOfWire (fun _ => .reply []) with setConfiguration := fun _ _ => some .stdException }

/-- A reader whose endpoint (port object 0) has no device name yet. -/
def unnamedReader : Reader :=
  { idleReader with
    ports := fun _ => { deviceName := "", isOpen := false, lineConfigured := false } }

/-- Three candidate ports `COM1`, `COM2`, `COM3` that open and configure without error: the
probe of `COM1` returns an empty reply, that of `COM2` the identifier "123", that of `COM3`
raises. -/
def detectEnv : Env :=
  { envOfWire (fun _ => .reply []) with
    detectCommand := fun device =>
      if device = "COM1" then .reply []
      else if device = "COM2" then .reply [49, 50, 51]
      else .raises .libLogicalAccess }

/-- A wire on which the reader sends the decimal identifier "123" once, then nothing. -/
def wire123 : Nat → ProbeOutcome :=
  fun n => if n = 0 then .reply [49, 50, 51] else .reply []

/-- A wire on which the first probe fails with a transport exception and the second reads
the identifier "123". -/
def noisyWire : Nat → ProbeOutcome :=
  fun n => if n = 0 then .raises .libLogicalAccess else .reply [49, 50, 51]

/-- The reader `idleReader` with its endpoint open and configured. -/
def openReader : Reader :=
  { idleReader with
    ports := fun _ => { deviceName := "COM1", isOpen := true, lineConfigured := true } }

/-- A wire on which every probe comes back empty. -/
def silentWire : Nat → ProbeOutcome :=
  fun _ => .reply []

/-- A wire that yields no identifier: every probe comes back empty or fails with an exception
derived from `std::exception`. -/
def QuietWire (wire : Nat → ProbeOutcome) : Prop :=
  ∀ n, wire n = .reply [] ∨ ∃ e, wire n = .raises e ∧ e.isStd = true

/-- The wire on which every failed probe is replaced by an empty reply. -/
def swallowFailures (wire : Nat → ProbeOutcome) : Nat → ProbeOutcome :=
  fun n =>
    match wire n with
    | .raises _ => .reply []
    | .reply bytes => .reply bytes

/-- The collaborators `env` with every failed probe replaced by an empty reply. -/
def swallowing (env : Env) : Env :=
  { env with sendCommand := swallowFailures env.sendCommand }

/-- What a caller observes of a poll call: its outcome and the reader it leaves; the record
of calls made to the chip factory is not part of the reader and is blanked. -/
def observable (r : Outcome Bool × Reader) : Outcome Bool × Reader :=
  (r.1, { r.2 with createCalls := [] })

/-- The value `createChipId` carries into a cycle is empty or an identifier the chip factory
has turned down with a `std::exception`. -/
def StaleFails (env : Env) (createChipId : ByteVector) (s : Reader) : Prop :=
  createChipId = [] ∨ ∃ e, env.createChip (chipType s) createChipId = .raises e ∧ e.isStd = true

/-- Two results of a poll loop that agree up to the record of calls to the chip factory. -/
def SameUpToCreateCalls (a b : Option (Outcome Bool × Reader)) : Prop :=
  (a = none ∧ b = none)
  ∨ ∃ o s1 calls, a = some (o, s1) ∧ b = some (o, { s1 with createCalls := calls })

/-- The port object an entry of the port record is about. -/
def PortOp.port : PortOp → Option Nat
  | .opened r => some r
  | .closed r => some r
  | .reopened r => some r
  | .settingsApplied r => some r
  | .probed r => some r
  | .backoff _ => none

/-- From `s` to `t` only port object `i` was acted on: every other port object is as it
was, the device name of `i` and the allocation mark are unchanged, and the port record grew
by entries about `i` only. -/
def Touches (i : Nat) (s t : Reader) : Prop :=
  (∀ k, k ≠ i → t.ports k = s.ports k)
  ∧ (t.ports i).deviceName = (s.ports i).deviceName
  ∧ t.nextPort = s.nextPort
  ∧ ∃ added, t.portOps = s.portOps ++ added ∧ ∀ op ∈ added, op.port = some i

/-- The number of 500 ms ticks that cover `maxwait` milliseconds: `maxwait / 500` rounded up. -/
def ticksFor (maxwait : Nat) : Nat :=
  (maxwait + 499) / 500

/-- The hexadecimal string that `processCardId` builds in `bufTmpId` for a non-empty input,
lines 248-255, and hands to `formatHexString`. -/
def renderedHex (rawSerialData : ByteVector) : String :=
  sprintf_012llx (atoull (getStdString rawSerialData))

/-- A wire on which the first `k` probes come back empty and every later one reads the
identifier "123". -/
def lateWire (k : Nat) : Nat → ProbeOutcome :=
  fun n => if n < k then .reply [] else .reply [49, 50, 51]

/-- Collaborators of `envOfWire wire123` with a chip factory that turns every identifier down
with a `std::exception`. -/
def refusingEnv : Env :=
  { envOfWire wire123 with createChip := fun _ _ => .raises .stdException }

/-- Three candidate ports `COM1`, `COM2`, `COM3` of which only `COM2` answers the probe. -/
def secondAnswersEnv : Env :=
  { envOfWire (fun _ => .reply []) with
    detectCommand := fun device =>
      if device = "COM2" then .reply [49, 50, 51] else .raises .libLogicalAccess }

/-- The reader `unnamedReader` with auto-detection disabled in the settings. -/
def undetectingReader : Reader :=
  { unnamedReader with settings := { sampleSettings with IsAutoDetectEnabled := false } }

/-! ## Normalizer lemmas -/

theorem isDigit_ofNat (b : Nat) (h1 : 48 ≤ b) (h2 : b ≤ 57) :
    (Char.ofNat b).isDigit = true ∧ (Char.ofNat b).toNat = b := by
  interval_cases b <;> exact ⟨by decide, by decide⟩

theorem all_isDigit_map (raw : ByteVector) (h : ∀ b ∈ raw, 48 ≤ b ∧ b ≤ 57) :
    (raw.map Char.ofNat).all Char.isDigit = true := by
  simp only [List.all_eq_true, List.mem_map]
  rintro c ⟨b, hb, rfl⟩
  exact (isDigit_ofNat b (h b hb).1 (h b hb).2).1

theorem foldl_digits (raw : ByteVector) (h : ∀ b ∈ raw, 48 ≤ b ∧ b ≤ 57) (acc : Nat) :
    (raw.map Char.ofNat).foldl (fun n c => 10 * n + (c.toNat - 48)) acc
      = acc * 10 ^ raw.length + decimalValue raw := by
  induction raw generalizing acc with
  | nil => simp [decimalValue]
  | cons b rest ih =>
    have hb := isDigit_ofNat b (h b (List.mem_cons_self _ _)).1 (h b (List.mem_cons_self _ _)).2
    have hrest : ∀ x ∈ rest, 48 ≤ x ∧ x ≤ 57 := fun x hx => h x (List.mem_cons_of_mem _ hx)
    simp only [List.map_cons, List.foldl_cons, hb.2, List.length_cons]
    rw [ih hrest]
    simp only [decimalValue, List.reverse_cons, List.map_append, List.map_cons, List.map_nil,
      Nat.ofDigits_append, Nat.ofDigits_singleton, List.length_map, List.length_reverse]
    ring

theorem atoull_digits (raw : ByteVector) (h : ∀ b ∈ raw, 48 ≤ b ∧ b ≤ 57)
    (hfit : decimalValue raw < 2 ^ 64) :
    atoull (getStdString raw) = decimalValue raw := by
  unfold atoull getStdString
  have hl : (String.mk (raw.map Char.ofNat)).toList = raw.map Char.ofNat := rfl
  rw [hl, all_isDigit_map raw h, foldl_digits raw h 0]
  simp only [zero_mul, zero_add]
  exact Nat.mod_eq_of_lt hfit

/-- C3. For every non-empty input made only of ASCII decimal digits whose value `n` fits in 64
bits, `processCardId` returns `formatHexString` applied to the rendering of `n` in lowercase
hexadecimal zero-padded to twelve digits; for "255" that rendering is `0000000000ff` and for
"0" it is `000000000000`. -/
theorem processCardId_decimal (formatHexString : String → ByteVector) (raw : ByteVector)
    (hne : raw ≠ []) (hdig : ∀ b ∈ raw, 48 ≤ b ∧ b ≤ 57) (hfit : decimalValue raw < 2 ^ 64) :
    processCardId formatHexString raw = formatHexString (sprintf_012llx (decimalValue raw))
    ∧ decimalValue [50, 53, 53] = 255 ∧ sprintf_012llx 255 = "0000000000ff"
    ∧ decimalValue [48] = 0 ∧ sprintf_012llx 0 = "000000000000" := by
  refine ⟨?_, by decide, by decide, by decide, by decide⟩
  have hlen : raw.length > 0 := List.length_pos.mpr hne
  simp only [processCardId, hlen, if_true, atoull_digits raw hdig hfit]

theorem processCardId_decimal_witness :
    processCardId hexPairsToBytes [50, 53, 53] = [0, 0, 0, 0, 0, 255] := by
  have h := (processCardId_decimal hexPairsToBytes [50, 53, 53] (by decide) (by decide)
    (by decide)).1
  rw [h]
  decide

/-! ## Presence poller: removal hands the new identifier to the next insertion -/

theorem processCardId_nil (f : String → ByteVector) : processCardId f [] = [] := by
  simp [processCardId]

theorem length_pos_of_processCardId_ne_nil (f : String → ByteVector) (buf : ByteVector)
    (h : processCardId f buf ≠ []) : buf.length > 0 := by
  rcases buf with _ | ⟨b, rest⟩
  · exact absurd (processCardId_nil f) h
  · simp

/-! ### Unfolding the poll loops one cycle at a time -/

theorem removalLoop_escaped (env : Env) (maxwait : Nat) (chip : Chip) (fuel cw : Nat)
    (s s1 : Reader) (e : Exc) (b : Bool)
    (h : removalTry env chip s = (.escaped e, b, s1)) :
    removalLoop env maxwait chip (fuel + 1) cw s = some (.thrown e, s1) := by
  simp [removalLoop, h]

theorem removalLoop_removed (env : Env) (maxwait : Nat) (chip : Chip) (fuel cw : Nat)
    (s s1 : Reader) (t : TryEnd) (h : removalTry env chip s = (t, true, s1))
    (ht : ∀ e, t ≠ .escaped e) :
    removalLoop env maxwait chip (fuel + 1) cw s = some (.returned true, s1) := by
  cases t with
  | escaped e => exact absurd rfl (ht e)
  | completed => simp [removalLoop, h]
  | swallowed => simp [removalLoop, h]

theorem removalLoop_continue (env : Env) (maxwait : Nat) (chip : Chip) (fuel cw : Nat)
    (s s1 : Reader) (t : TryEnd) (h : removalTry env chip s = (t, false, s1))
    (ht : ∀ e, t ≠ .escaped e) (hc : maxwait = 0 ∨ (cw + 500) % 2 ^ 32 < maxwait) :
    removalLoop env maxwait chip (fuel + 1) cw s
      = removalLoop env maxwait chip fuel ((cw + 500) % 2 ^ 32)
          { s1 with ticks := s1.ticks + 1 } := by
  cases t with
  | escaped e => exact absurd rfl (ht e)
  | completed => simp only [removalLoop, h, if_pos hc]
  | swallowed => simp only [removalLoop, h, if_pos hc]

theorem removalLoop_timeout (env : Env) (maxwait : Nat) (chip : Chip) (fuel cw : Nat)
    (s s1 : Reader) (t : TryEnd) (h : removalTry env chip s = (t, false, s1))
    (ht : ∀ e, t ≠ .escaped e) (hc : ¬ (maxwait = 0 ∨ (cw + 500) % 2 ^ 32 < maxwait)) :
    removalLoop env maxwait chip (fuel + 1) cw s
      = some (.returned false, { s1 with ticks := s1.ticks + 1 }) := by
  cases t with
  | escaped e => exact absurd rfl (ht e)
  | completed => simp only [removalLoop, h, if_neg hc]
  | swallowed => simp only [removalLoop, h, if_neg hc]

theorem insertionLoop_escaped (env : Env) (maxwait : Nat) (fuel cw : Nat) (id id1 : ByteVector)
    (s s1 : Reader) (e : Exc) (b : Bool)
    (h : insertionTry env id s = (.escaped e, id1, b, s1)) :
    insertionLoop env maxwait (fuel + 1) id cw s = some (.thrown e, s1) := by
  simp [insertionLoop, h]

theorem insertionLoop_inserted (env : Env) (maxwait : Nat) (fuel cw : Nat) (id id1 : ByteVector)
    (s s1 : Reader) (t : TryEnd) (h : insertionTry env id s = (t, id1, true, s1))
    (ht : ∀ e, t ≠ .escaped e) :
    insertionLoop env maxwait (fuel + 1) id cw s = some (.returned true, s1) := by
  cases t with
  | escaped e => exact absurd rfl (ht e)
  | completed => simp [insertionLoop, h]
  | swallowed => simp [insertionLoop, h]

theorem insertionLoop_continue (env : Env) (maxwait : Nat) (fuel cw : Nat) (id id1 : ByteVector)
    (s s1 : Reader) (t : TryEnd) (h : insertionTry env id s = (t, id1, false, s1))
    (ht : ∀ e, t ≠ .escaped e) (hc : maxwait = 0 ∨ (cw + 500) % 2 ^ 32 < maxwait) :
    insertionLoop env maxwait (fuel + 1) id cw s
      = insertionLoop env maxwait fuel id1 ((cw + 500) % 2 ^ 32)
          { s1 with ticks := s1.ticks + 1 } := by
  cases t with
  | escaped e => exact absurd rfl (ht e)
  | completed => simp only [insertionLoop, h, if_pos hc]
  | swallowed => simp only [insertionLoop, h, if_pos hc]

theorem insertionLoop_timeout (env : Env) (maxwait : Nat) (fuel cw : Nat) (id id1 : ByteVector)
    (s s1 : Reader) (t : TryEnd) (h : insertionTry env id s = (t, id1, false, s1))
    (ht : ∀ e, t ≠ .escaped e) (hc : ¬ (maxwait = 0 ∨ (cw + 500) % 2 ^ 32 < maxwait)) :
    insertionLoop env maxwait (fuel + 1) id cw s
      = some (.returned false, { s1 with ticks := s1.ticks + 1 }) := by
  cases t with
  | escaped e => exact absurd rfl (ht e)
  | completed => simp only [insertionLoop, h, if_neg hc]
  | swallowed => simp only [insertionLoop, h, if_neg hc]

theorem ofExc_ne_escaped_of_isStd (e : Exc) (h : e.isStd = true) :
    ∀ e2, TryEnd.ofExc e ≠ .escaped e2 := by
  intro e2
  simp [TryEnd.ofExc, h]

theorem completed_ne_escaped : ∀ e, TryEnd.completed ≠ .escaped e := by
  intro e; simp

theorem swallowed_ne_escaped : ∀ e, TryEnd.swallowed ≠ .escaped e := by
  intro e; simp

/-! ### The frame of the log switch -/

theorem suppressLog_frame (see : Bool) (s : Reader) :
    (suppressLog see s).ports = s.ports ∧ (suppressLog see s).nextPort = s.nextPort
    ∧ (suppressLog see s).d_port = s.d_port
    ∧ (suppressLog see s).d_isAutoDetected = s.d_isAutoDetected
    ∧ (suppressLog see s).d_card_type = s.d_card_type
    ∧ (suppressLog see s).d_insertedChip = s.d_insertedChip
    ∧ (suppressLog see s).removalIdentifier = s.removalIdentifier
    ∧ (suppressLog see s).probesSent = s.probesSent
    ∧ (suppressLog see s).ticks = s.ticks
    ∧ (suppressLog see s).createCalls = s.createCalls
    ∧ (suppressLog see s).settingsCalls = s.settingsCalls
    ∧ (suppressLog see s).portOps = s.portOps := by
  unfold suppressLog
  split <;> simp [setLogEnabled]

@[simp] theorem suppressLog_d_card_type (see : Bool) (s : Reader) :
    (suppressLog see s).d_card_type = s.d_card_type := (suppressLog_frame see s).2.2.2.2.1

@[simp] theorem suppressLog_d_insertedChip (see : Bool) (s : Reader) :
    (suppressLog see s).d_insertedChip = s.d_insertedChip := (suppressLog_frame see s).2.2.2.2.2.1

@[simp] theorem suppressLog_removalIdentifier (see : Bool) (s : Reader) :
    (suppressLog see s).removalIdentifier = s.removalIdentifier :=
  (suppressLog_frame see s).2.2.2.2.2.2.1

@[simp] theorem suppressLog_probesSent (see : Bool) (s : Reader) :
    (suppressLog see s).probesSent = s.probesSent := (suppressLog_frame see s).2.2.2.2.2.2.2.1

@[simp] theorem suppressLog_ticks (see : Bool) (s : Reader) :
    (suppressLog see s).ticks = s.ticks := (suppressLog_frame see s).2.2.2.2.2.2.2.2.1

@[simp] theorem suppressLog_createCalls (see : Bool) (s : Reader) :
    (suppressLog see s).createCalls = s.createCalls :=
  (suppressLog_frame see s).2.2.2.2.2.2.2.2.2.1

@[simp] theorem chipType_suppressLog (see : Bool) (s : Reader) :
    chipType (suppressLog see s) = chipType s := by
  simp [chipType]

theorem removalEntry_frame (s : Reader) :
    (removalEntry s).d_insertedChip = s.d_insertedChip
    ∧ (removalEntry s).removalIdentifier = []
    ∧ (removalEntry s).probesSent = s.probesSent
    ∧ (removalEntry s).ticks = s.ticks
    ∧ (removalEntry s).d_card_type = s.d_card_type
    ∧ (removalEntry s).createCalls = s.createCalls := by
  simp [removalEntry]

@[simp] theorem removalEntry_d_insertedChip (s : Reader) :
    (removalEntry s).d_insertedChip = s.d_insertedChip := (removalEntry_frame s).1

@[simp] theorem removalEntry_removalIdentifier (s : Reader) :
    (removalEntry s).removalIdentifier = [] := (removalEntry_frame s).2.1

@[simp] theorem removalEntry_probesSent (s : Reader) :
    (removalEntry s).probesSent = s.probesSent := (removalEntry_frame s).2.2.1

@[simp] theorem removalEntry_ticks (s : Reader) :
    (removalEntry s).ticks = s.ticks := (removalEntry_frame s).2.2.2.1

@[simp] theorem removalEntry_d_card_type (s : Reader) :
    (removalEntry s).d_card_type = s.d_card_type := (removalEntry_frame s).2.2.2.2.1

@[simp] theorem removalEntry_createCalls (s : Reader) :
    (removalEntry s).createCalls = s.createCalls := (removalEntry_frame s).2.2.2.2.2

/-- With a chip present, `waitRemoval` is its loop run from the entry state, followed by the
restoration of the log flag. -/
theorem waitRemoval_of_chip (env : Env) (maxwait fuel : Nat) (s : Reader) (chip : Chip)
    (hchip : s.d_insertedChip = some chip) :
    waitRemoval env maxwait fuel s
      = (removalLoop env maxwait chip fuel 0 (removalEntry s)).map
        (fun r => (r.1, setLogEnabled r.2 s.settings.IsLogEnabled)) := by
  simp only [waitRemoval, removalEntry_d_insertedChip, hchip]
  cases removalLoop env maxwait chip fuel 0 (removalEntry s) with
  | none => rfl
  | some r =>
    obtain ⟨o, s2⟩ := r
    cases o <;> rfl

theorem waitRemoval_no_chip (env : Env) (maxwait fuel : Nat) (s : Reader)
    (hchip : s.d_insertedChip = none) :
    waitRemoval env maxwait fuel s
      = some (.returned false, setLogEnabled (removalEntry s) s.settings.IsLogEnabled) := by
  simp only [waitRemoval, removalEntry_d_insertedChip, hchip]

theorem waitInsertion_eq (env : Env) (maxwait fuel : Nat) (s : Reader) :
    waitInsertion env maxwait fuel s
      = (insertionLoop env maxwait fuel [] 0 (suppressLog s.settings.SeeWaitInsertionLog s)).map
        (insertionExit s.settings.IsLogEnabled) := by
  simp only [waitInsertion]
  cases insertionLoop env maxwait fuel [] 0 (suppressLog s.settings.SeeWaitInsertionLog s) with
  | none => rfl
  | some r =>
    obtain ⟨o, s2⟩ := r
    cases o <;> rfl

/-! ### Removal by replacement, then insertion from the pending identifier -/

theorem removalTry_replaced (env : Env) (s : Reader) (chip : Chip) (buf : ByteVector)
    (hprobe : env.sendCommand s.probesSent = .reply buf)
    (hne : processCardId env.formatHexString buf ≠ [])
    (hdiff : processCardId env.formatHexString buf ≠ chip.identifier) :
    removalTry env chip s = (.completed, true,
      { s with probesSent := s.probesSent + 1, d_insertedChip := none,
               removalIdentifier := processCardId env.formatHexString buf }) := by
  have hlen : buf.length > 0 := length_pos_of_processCardId_ne_nil _ _ hne
  have hYlen : (processCardId env.formatHexString buf).length > 0 := List.length_pos.mpr hne
  simp only [removalTry, hprobe, hlen, hYlen, if_true, true_and, ne_eq, hdiff, not_false_eq_true]

theorem waitRemoval_replaced (env : Env) (s : Reader) (chip : Chip)
    (buf Y : ByteVector) (maxwait fuel : Nat)
    (hchip : s.d_insertedChip = some chip)
    (hprobe : env.sendCommand s.probesSent = .reply buf)
    (hY : processCardId env.formatHexString buf = Y)
    (hne : Y ≠ []) (hdiff : Y ≠ chip.identifier) :
    ∃ s1, waitRemoval env maxwait (fuel + 1) s = some (.returned true, s1)
      ∧ s1.d_insertedChip = none ∧ s1.removalIdentifier = Y
      ∧ s1.probesSent = s.probesSent + 1 ∧ s1.ticks = s.ticks
      ∧ s1.d_card_type = s.d_card_type
      ∧ s1.settings.IsLogEnabled = s.settings.IsLogEnabled := by
  subst hY
  have ht := removalTry_replaced env (removalEntry s) chip buf (by simpa using hprobe) hne hdiff
  rw [waitRemoval_of_chip env maxwait (fuel + 1) s chip hchip,
    removalLoop_removed env maxwait chip fuel 0 _ _ _ ht completed_ne_escaped]
  refine ⟨_, rfl, ?_, ?_, ?_, ?_, ?_, ?_⟩ <;> simp [setLogEnabled]

theorem insertionCreate_created (env : Env) (id : ByteVector) (s : Reader)
    (hne : id ≠ []) (hcreate : env.createChip (chipType s) id = .created) :
    insertionCreate env id s = (.completed, true,
      { s with createCalls := s.createCalls ++ [(chipType s, id)],
               d_insertedChip := some { cardType := chipType s, identifier := id } }) := by
  have hlen : id.length > 0 := List.length_pos.mpr hne
  simp only [insertionCreate, hlen, if_true, hcreate, createdChip]

theorem insertionTry_pending (env : Env) (id : ByteVector) (s : Reader)
    (hpend : s.removalIdentifier ≠ []) :
    insertionTry env id s
      = ((insertionCreate env s.removalIdentifier s).1, s.removalIdentifier,
         (insertionCreate env s.removalIdentifier s).2.1,
         (insertionCreate env s.removalIdentifier s).2.2) := by
  have hlen : s.removalIdentifier.length > 0 := List.length_pos.mpr hpend
  simp only [insertionTry, hlen, if_true]

theorem waitInsertion_pending (env : Env) (s : Reader) (maxwait fuel : Nat)
    (hpend : s.removalIdentifier ≠ [])
    (hcreate : env.createChip (chipType s) s.removalIdentifier = .created) :
    ∃ s2, waitInsertion env maxwait (fuel + 1) s = some (.returned true, s2)
      ∧ s2.d_insertedChip = some { cardType := chipType s, identifier := s.removalIdentifier }
      ∧ s2.probesSent = s.probesSent ∧ s2.ticks = s.ticks
      ∧ s2.removalIdentifier = []
      ∧ s2.settings.IsLogEnabled = s.settings.IsLogEnabled := by
  have ht := insertionTry_pending env [] (suppressLog s.settings.SeeWaitInsertionLog s)
    (by simpa using hpend)
  rw [insertionCreate_created env _ _ (by simpa using hpend) (by simpa using hcreate)] at ht
  rw [waitInsertion_eq, insertionLoop_inserted env maxwait fuel 0 _ _ _ _ _ ht completed_ne_escaped]
  refine ⟨_, rfl, ?_, ?_, ?_, ?_, ?_⟩ <;> simp [setLogEnabled]

/-- C1. From a state where a chip with identifier `X` is present, a `waitRemoval` whose first
probe reply normalizes to a non-empty `Y` different from `X` returns true, leaves no chip
present and stores `Y` as the pending removal identifier; the next `waitInsertion` (the chip
factory accepting `Y`) returns true with a present chip of identifier `Y`, having sent no probe
and slept no tick. -/
theorem removal_then_insertion_consumes_pending (env : Env) (s : Reader) (chip : Chip)
    (buf Y : ByteVector) (maxwait1 fuel1 maxwait2 fuel2 : Nat)
    (hchip : s.d_insertedChip = some chip)
    (hprobe : env.sendCommand s.probesSent = .reply buf)
    (hY : processCardId env.formatHexString buf = Y)
    (hne : Y ≠ []) (hdiff : Y ≠ chip.identifier)
    (hcreate : env.createChip (chipType s) Y = .created) :
    ∃ s1 s2,
      waitRemoval env maxwait1 (fuel1 + 1) s = some (.returned true, s1)
      ∧ s1.d_insertedChip = none ∧ isConnected s1 = false ∧ s1.removalIdentifier = Y
      ∧ waitInsertion env maxwait2 (fuel2 + 1) s1 = some (.returned true, s2)
      ∧ s2.d_insertedChip = some { cardType := chipType s, identifier := Y }
      ∧ isConnected s2 = true ∧ getChipList s2 = [{ cardType := chipType s, identifier := Y }]
      ∧ s2.probesSent = s1.probesSent ∧ s2.ticks = s1.ticks := by
  obtain ⟨s1, h1, hc1, hr1, _, _, ht1, _⟩ :=
    waitRemoval_replaced env s chip buf Y maxwait1 fuel1 hchip hprobe hY hne hdiff
  have hty : chipType s1 = chipType s := by simp [chipType, ht1]
  obtain ⟨s2, h2, hc2, hp2, hk2, _, _⟩ :=
    waitInsertion_pending env s1 maxwait2 fuel2 (by rw [hr1]; exact hne)
      (by rw [hty, hr1]; exact hcreate)
  rw [hty, hr1] at hc2
  exact ⟨s1, s2, h1, hc1, by simp [isConnected, hc1], hr1, h2, hc2, by simp [isConnected, hc2],
    by simp [getChipList, hc2], hp2, hk2⟩

theorem removal_then_insertion_consumes_pending_witness :
    ∃ s1 s2,
      waitRemoval (envOfWire wire123) 500 1 presentReader = some (.returned true, s1)
      ∧ s1.d_insertedChip = none ∧ isConnected s1 = false
      ∧ s1.removalIdentifier = [0, 0, 0, 0, 0, 123]
      ∧ waitInsertion (envOfWire wire123) 500 1 s1 = some (.returned true, s2)
      ∧ s2.d_insertedChip = some { cardType := "GenericTag", identifier := [0, 0, 0, 0, 0, 123] }
      ∧ isConnected s2 = true
      ∧ getChipList s2 = [{ cardType := "GenericTag", identifier := [0, 0, 0, 0, 0, 123] }]
      ∧ s2.probesSent = s1.probesSent ∧ s2.ticks = s1.ticks :=
  removal_then_insertion_consumes_pending (envOfWire wire123) presentReader
    { cardType := "GenericTag", identifier := [0, 0, 0, 0, 0, 1] } [49, 50, 51]
    [0, 0, 0, 0, 0, 123] 500 0 500 0 rfl rfl (by decide) (by decide) (by decide) rfl

/-! ### Timeout of `waitInsertion` on a quiet wire -/

theorem insertionTry_quiet (env : Env) (s : Reader) (hq : QuietWire env.sendCommand)
    (hpend : s.removalIdentifier = []) :
    ∃ t, insertionTry env [] s = (t, [], false, { s with probesSent := s.probesSent + 1 })
      ∧ ∀ e, t ≠ .escaped e := by
  rcases hq s.probesSent with h | ⟨e, h, he⟩
  · exact ⟨.completed, by simp [insertionTry, hpend, h, insertionCreate], completed_ne_escaped⟩
  · exact ⟨TryEnd.ofExc e, by simp [insertionTry, hpend, h], ofExc_ne_escaped_of_isStd e he⟩

/-- On a quiet wire with no pending identifier the loop of `waitInsertion` leaves after `k`
ticks when the counter, which does not wrap on the way, first reaches `maxwait` then. -/
theorem insertionLoop_quiet (env : Env) (maxwait : Nat) (hq : QuietWire env.sendCommand) :
    ∀ (k fuel cw : Nat) (s : Reader), 1 ≤ k → k ≤ fuel → s.removalIdentifier = [] →
      cw + 500 * k < 2 ^ 32 → cw + 500 * (k - 1) < maxwait → maxwait ≤ cw + 500 * k →
      insertionLoop env maxwait fuel [] cw s
        = some (.returned false,
            { s with probesSent := s.probesSent + k, ticks := s.ticks + k }) := by
  intro k
  induction k with
  | zero => intro fuel cw s h1; omega
  | succ k ih =>
    intro fuel cw s _ hfuel hpend hwrap hlow hhigh
    obtain ⟨fuel, rfl⟩ : ∃ f, fuel = f + 1 := ⟨fuel - 1, by omega⟩
    obtain ⟨t, ht, hne⟩ := insertionTry_quiet env s hq hpend
    have hmod : (cw + 500) % 2 ^ 32 = cw + 500 := Nat.mod_eq_of_lt (by omega)
    by_cases hk : k = 0
    · subst hk
      rw [insertionLoop_timeout env maxwait fuel cw [] [] s _ t ht hne (by rw [hmod]; omega)]
    · have h500 : 500 * (k + 1 - 1) = 500 * (k - 1) + 500 := by omega
      rw [insertionLoop_continue env maxwait fuel cw [] [] s _ t ht hne
        (by rw [hmod]; right; omega), hmod]
      refine (ih fuel (cw + 500) _ (by omega) (by omega) ?_ (by omega) (by omega)
        (by omega)).trans ?_
      · exact hpend
      · simp only [Option.some.injEq, Prod.mk.injEq, true_and, Reader.mk.injEq, and_true]
        omega

/-- Timeout of `waitInsertion` when the counter cannot wrap: for `0 < maxwait` with
`maxwait ≤ 4294967000`, no pending identifier and a quiet wire, the call returns false after
exactly `ticksFor maxwait` ticks and as many probes, whatever fuel beyond that is given. -/
theorem waitInsertion_timeout_ticks (env : Env) (maxwait fuel : Nat) (s : Reader)
    (hq : QuietWire env.sendCommand) (hpend : s.removalIdentifier = [])
    (hpos : 0 < maxwait) (hmax : maxwait ≤ 4294967000) (hfuel : ticksFor maxwait ≤ fuel) :
    ∃ s1, waitInsertion env maxwait fuel s = some (.returned false, s1)
      ∧ s1.ticks = s.ticks + ticksFor maxwait
      ∧ s1.probesSent = s.probesSent + ticksFor maxwait
      ∧ s1.d_insertedChip = s.d_insertedChip ∧ s1.createCalls = s.createCalls := by
  have hl := insertionLoop_quiet env maxwait hq (ticksFor maxwait) fuel 0
    (suppressLog s.settings.SeeWaitInsertionLog s) (by unfold ticksFor; omega) hfuel
    (by simpa using hpend) (by unfold ticksFor; omega) (by unfold ticksFor; omega)
    (by unfold ticksFor; omega)
  rw [waitInsertion_eq, hl]
  refine ⟨_, rfl, ?_, ?_, ?_, ?_⟩ <;> simp [setLogEnabled]

theorem waitInsertion_timeout_ticks_example :
    ∃ s1, waitInsertion (envOfWire silentWire) 500 1 idleReader = some (.returned false, s1)
      ∧ s1.ticks = 1 ∧ s1.probesSent = 1 := by
  obtain ⟨s1, h, ht, hp, _⟩ := waitInsertion_timeout_ticks (envOfWire silentWire) 500 1
    idleReader (fun _ => Or.inl rfl) rfl (by decide) (by decide) (by decide)
  exact ⟨s1, h, ht, hp⟩

/-- With `maxwait = 4294967295` the counter, a multiple of four that wraps at `2^32`, never
reaches `maxwait`: on a quiet wire the loop is still running after any number of cycles. -/
theorem insertionLoop_uint_max (env : Env) (hq : QuietWire env.sendCommand) :
    ∀ (fuel cw : Nat) (s : Reader), s.removalIdentifier = [] → cw % 4 = 0 →
      insertionLoop env 4294967295 fuel [] cw s = none := by
  intro fuel
  induction fuel with
  | zero => intro cw s _ _; rfl
  | succ fuel ih =>
    intro cw s hpend hcw
    obtain ⟨t, ht, hne⟩ := insertionTry_quiet env s hq hpend
    rw [insertionLoop_continue env 4294967295 fuel cw [] [] s _ t ht hne (by right; omega)]
    exact ih _ _ hpend (by omega)

/-- C2 at `maxwait = 4294967295`, an always-empty wire and no pending identifier: the call
does not return after `ticksFor 4294967295 = 8589935` ticks, nor after any other number of
poll cycles. -/
theorem waitInsertion_uint_max_never_returns :
    ticksFor 4294967295 = 8589935
    ∧ ∀ fuel, waitInsertion (envOfWire silentWire) 4294967295 fuel idleReader = none := by
  refine ⟨by decide, fun fuel => ?_⟩
  rw [waitInsertion_eq, insertionLoop_uint_max (envOfWire silentWire) (fun _ => Or.inl rfl)
    fuel 0 _ (by simp [idleReader]) (by decide)]
  rfl

/-! ### Where the pending removal identifier is cleared -/

/-- The two ways a cycle of `waitRemoval` can go: nothing changes but the probe count, or the
chip is replaced by a non-empty identifier different from its own. -/
theorem removalTry_cases (env : Env) (chip : Chip) (s : Reader) :
    (∃ t, removalTry env chip s = (t, false, { s with probesSent := s.probesSent + 1 }))
    ∨ (∃ Y, Y ≠ [] ∧ Y ≠ chip.identifier
        ∧ removalTry env chip s = (.completed, true,
            { s with probesSent := s.probesSent + 1, d_insertedChip := none,
                     removalIdentifier := Y })) := by
  unfold removalTry
  cases env.sendCommand s.probesSent with
  | raises e => exact Or.inl ⟨_, rfl⟩
  | reply buf =>
    by_cases hlen : buf.length > 0
    · by_cases hY : (processCardId env.formatHexString buf).length > 0
          ∧ processCardId env.formatHexString buf ≠ chip.identifier
      · refine Or.inr ⟨processCardId env.formatHexString buf, ?_, hY.2, ?_⟩
        · exact List.length_pos.mp hY.1
        · simp only [hlen, if_true, hY, ne_eq, not_false_eq_true, and_self]
      · refine Or.inl ⟨.completed, ?_⟩
        simp only [hlen, if_true, hY, if_false]
    · refine Or.inl ⟨.completed, ?_⟩
      simp only [hlen, if_false]

theorem removalLoop_pending (env : Env) (maxwait : Nat) (chip : Chip) :
    ∀ (fuel cw : Nat) (s : Reader) (o : Outcome Bool) (s1 : Reader),
      s.removalIdentifier = [] →
      removalLoop env maxwait chip fuel cw s = some (o, s1) →
      (o = .returned true ∧ s1.removalIdentifier ≠ [] ∧ s1.d_insertedChip = none)
      ∨ (o ≠ .returned true ∧ s1.removalIdentifier = []) := by
  intro fuel
  induction fuel with
  | zero => intro cw s o s1 _ h; simp [removalLoop] at h
  | succ fuel ih =>
    intro cw s o s1 hpend h
    rcases removalTry_cases env chip s with ⟨t, ht⟩ | ⟨Y, hY, _, ht⟩
    · cases t with
      | escaped e =>
        rw [removalLoop_escaped env maxwait chip fuel cw s _ e false ht] at h
        simp only [Option.some.injEq, Prod.mk.injEq] at h
        obtain ⟨rfl, rfl⟩ := h
        exact Or.inr ⟨by simp, hpend⟩
      | completed =>
        by_cases hc : maxwait = 0 ∨ (cw + 500) % 2 ^ 32 < maxwait
        · rw [removalLoop_continue env maxwait chip fuel cw s _ _ ht completed_ne_escaped hc] at h
          exact ih _ _ o s1 (by exact hpend) h
        · rw [removalLoop_timeout env maxwait chip fuel cw s _ _ ht completed_ne_escaped hc] at h
          simp only [Option.some.injEq, Prod.mk.injEq] at h
          obtain ⟨rfl, rfl⟩ := h
          exact Or.inr ⟨by simp, hpend⟩
      | swallowed =>
        by_cases hc : maxwait = 0 ∨ (cw + 500) % 2 ^ 32 < maxwait
        · rw [removalLoop_continue env maxwait chip fuel cw s _ _ ht swallowed_ne_escaped hc] at h
          exact ih _ _ o s1 (by exact hpend) h
        · rw [removalLoop_timeout env maxwait chip fuel cw s _ _ ht swallowed_ne_escaped hc] at h
          simp only [Option.some.injEq, Prod.mk.injEq] at h
          obtain ⟨rfl, rfl⟩ := h
          exact Or.inr ⟨by simp, hpend⟩
    · rw [removalLoop_removed env maxwait chip fuel cw s _ _ ht completed_ne_escaped] at h
      simp only [Option.some.injEq, Prod.mk.injEq] at h
      obtain ⟨rfl, rfl⟩ := h
      exact Or.inl ⟨rfl, hY, rfl⟩

theorem waitRemoval_pending (env : Env) (maxwait fuel : Nat) (s s1 : Reader) (o : Outcome Bool)
    (h : waitRemoval env maxwait fuel s = some (o, s1)) :
    (o = .returned true ∧ s1.removalIdentifier ≠ [] ∧ s1.d_insertedChip = none)
    ∨ (o ≠ .returned true ∧ s1.removalIdentifier = []) := by
  cases hchip : s.d_insertedChip with
  | none =>
    rw [waitRemoval_no_chip env maxwait fuel s hchip] at h
    simp only [Option.some.injEq, Prod.mk.injEq] at h
    obtain ⟨rfl, rfl⟩ := h
    exact Or.inr ⟨by simp, by simp [setLogEnabled]⟩
  | some chip =>
    rw [waitRemoval_of_chip env maxwait fuel s chip hchip] at h
    cases hl : removalLoop env maxwait chip fuel 0 (removalEntry s) with
    | none => simp [hl] at h
    | some r =>
      obtain ⟨o2, s2⟩ := r
      rw [hl] at h
      simp only [Option.map_some', Option.some.injEq, Prod.mk.injEq] at h
      obtain ⟨rfl, rfl⟩ := h
      have := removalLoop_pending env maxwait chip fuel 0 (removalEntry s) o2 s2
        (removalEntry_removalIdentifier s) hl
      simpa [setLogEnabled] using this

/-- C4, the claim as stated fails: a `waitRemoval` that detects a replacement ends with the
pending removal identifier set, here to `00 00 00 00 00 7b`, and the next `waitInsertion`
starts with it in place. -/
theorem waitRemoval_leaves_pending :
    (waitRemoval (envOfWire wire123) 500 1 presentReader).map
        (fun r => (r.1, r.2.removalIdentifier))
      = some (.returned true, [0, 0, 0, 0, 0, 123]) := by
  decide

/-- A cycle of `waitRemoval` that sets `removed` has read a reply whose normalized form is
not empty and differs from the identifier of the chip; that form is stored as the pending
removal identifier and the chip is dropped. -/
theorem removalTry_true (env : Env) (chip : Chip) (s s1 : Reader) (t : TryEnd)
    (h : removalTry env chip s = (t, true, s1)) :
    ∃ buf, env.sendCommand s.probesSent = .reply buf
      ∧ s1.probesSent = s.probesSent + 1
      ∧ s1.removalIdentifier = processCardId env.formatHexString buf
      ∧ processCardId env.formatHexString buf ≠ []
      ∧ processCardId env.formatHexString buf ≠ chip.identifier
      ∧ s1.d_insertedChip = none := by
  unfold removalTry at h
  cases hw : env.sendCommand s.probesSent with
  | raises e => rw [hw] at h; simp at h
  | reply buf =>
    rw [hw] at h
    by_cases hlen : buf.length > 0
    · by_cases hY : (processCardId env.formatHexString buf).length > 0
          ∧ processCardId env.formatHexString buf ≠ chip.identifier
      · simp only [hlen, if_true, hY, ne_eq, not_false_eq_true, and_self, Prod.mk.injEq,
          true_and] at h
        rw [← h.2]
        exact ⟨buf, rfl, rfl, rfl, List.length_pos.mp hY.1, hY.2, rfl⟩
      · simp only [hlen, if_true, hY, if_false, Prod.mk.injEq, Bool.false_eq_true, false_and,
          and_false] at h
    · simp only [hlen, if_false, Prod.mk.injEq, Bool.false_eq_true, false_and,
        and_false] at h

theorem removalLoop_true (env : Env) (maxwait : Nat) (chip : Chip) :
    ∀ (fuel cw : Nat) (s s1 : Reader),
      removalLoop env maxwait chip fuel cw s = some (.returned true, s1) →
      ∃ buf, env.sendCommand (s1.probesSent - 1) = .reply buf
        ∧ s1.removalIdentifier = processCardId env.formatHexString buf
        ∧ processCardId env.formatHexString buf ≠ []
        ∧ processCardId env.formatHexString buf ≠ chip.identifier
        ∧ s1.d_insertedChip = none := by
  intro fuel
  induction fuel with
  | zero => intro cw s s1 h; simp [removalLoop] at h
  | succ fuel ih =>
    intro cw s s1 h
    rcases ht : removalTry env chip s with ⟨t, b, s2⟩
    have key : (∀ e, t ≠ .escaped e) →
        ∃ buf, env.sendCommand (s1.probesSent - 1) = .reply buf
          ∧ s1.removalIdentifier = processCardId env.formatHexString buf
          ∧ processCardId env.formatHexString buf ≠ []
          ∧ processCardId env.formatHexString buf ≠ chip.identifier
          ∧ s1.d_insertedChip = none := by
      intro hnt
      cases b with
      | true =>
        rw [removalLoop_removed env maxwait chip fuel cw s s2 t ht hnt] at h
        simp only [Option.some.injEq, Prod.mk.injEq, true_and] at h
        subst h
        obtain ⟨buf, hw, hp, hr, hne, hdiff, hc⟩ := removalTry_true env chip s s2 t ht
        refine ⟨buf, ?_, hr, hne, hdiff, hc⟩
        rw [hp]
        simpa using hw
      | false =>
        by_cases hc : maxwait = 0 ∨ (cw + 500) % 2 ^ 32 < maxwait
        · rw [removalLoop_continue env maxwait chip fuel cw s s2 t ht hnt hc] at h
          exact ih _ _ s1 h
        · rw [removalLoop_timeout env maxwait chip fuel cw s s2 t ht hnt hc] at h
          simp at h
    cases t with
    | escaped e =>
      rw [removalLoop_escaped env maxwait chip fuel cw s s2 e b ht] at h
      simp at h
    | completed => exact key completed_ne_escaped
    | swallowed => exact key swallowed_ne_escaped

/-- A `waitRemoval` that returns true had a chip on entry and ends with the normalized reply
of its last probe as the pending removal identifier. -/
theorem waitRemoval_true (env : Env) (maxwait fuel : Nat) (s s1 : Reader)
    (h : waitRemoval env maxwait fuel s = some (.returned true, s1)) :
    ∃ chip buf, s.d_insertedChip = some chip
      ∧ env.sendCommand (s1.probesSent - 1) = .reply buf
      ∧ s1.removalIdentifier = processCardId env.formatHexString buf
      ∧ s1.removalIdentifier ≠ []
      ∧ s1.removalIdentifier ≠ chip.identifier
      ∧ s1.d_insertedChip = none := by
  cases hchip : s.d_insertedChip with
  | none =>
    rw [waitRemoval_no_chip env maxwait fuel s hchip] at h
    simp at h
  | some chip =>
    rw [waitRemoval_of_chip env maxwait fuel s chip hchip] at h
    cases hl : removalLoop env maxwait chip fuel 0 (removalEntry s) with
    | none => simp [hl] at h
    | some r =>
      obtain ⟨o2, s2⟩ := r
      rw [hl] at h
      simp only [Option.map_some', Option.some.injEq, Prod.mk.injEq] at h
      obtain ⟨ho, hs⟩ := h
      subst ho
      obtain ⟨buf, hw, hr, hne, hdiff, hc⟩ :=
        removalLoop_true env maxwait chip fuel 0 (removalEntry s) s2 hl
      have hp : s1.probesSent = s2.probesSent := by rw [← hs]; rfl
      have hri : s1.removalIdentifier = s2.removalIdentifier := by rw [← hs]; rfl
      have hci : s1.d_insertedChip = s2.d_insertedChip := by rw [← hs]; rfl
      refine ⟨chip, buf, rfl, ?_, ?_, ?_, ?_, ?_⟩
      · rw [hp]; exact hw
      · rw [hri]; exact hr
      · rw [hri, hr]; exact hne
      · rw [hri, hr]; exact hdiff
      · rw [hci]; exact hc

/-- The pending removal identifier a `waitRemoval` call starts with has no effect on it. -/
theorem waitRemoval_ignores_pending (env : Env) (maxwait fuel : Nat) (s : Reader)
    (pending : ByteVector) :
    waitRemoval env maxwait fuel { s with removalIdentifier := pending }
      = waitRemoval env maxwait fuel s := by
  have he : removalEntry { s with removalIdentifier := pending } = removalEntry s := by
    unfold removalEntry suppressLog setLogEnabled
    split <;> rfl
  simp only [waitRemoval, he]

/-- C4 as amended. The pending removal identifier is cleared at the start of every
`waitRemoval` call (the value it had before has no effect on the call) and is empty at the end
of every `waitInsertion` call that returns. At the end of a `waitRemoval` call it is empty
unless the call returned true; then a chip was present on entry, the pending identifier is the
normalized reply of the last probe of the call, not empty and different from the identifier of
that chip, and no chip is present. A `waitInsertion` that starts with a non-empty pending
identifier which the chip factory accepts returns true with the chip made for that identifier,
having sent no probe and slept no tick, and leaves the pending identifier empty. -/
theorem pending_identifier_lifecycle (env : Env) (maxwait fuel : Nat) (s s1 : Reader)
    (o : Outcome Bool) :
    (∀ b, waitInsertion env maxwait fuel s = some (.returned b, s1) → s1.removalIdentifier = [])
    ∧ ((removalEntry s).removalIdentifier = []
        ∧ ∀ pending, waitRemoval env maxwait fuel { s with removalIdentifier := pending }
            = waitRemoval env maxwait fuel s)
    ∧ (waitRemoval env maxwait fuel s = some (o, s1) → o ≠ .returned true →
        s1.removalIdentifier = [])
    ∧ (waitRemoval env maxwait fuel s = some (.returned true, s1) →
        ∃ chip buf, s.d_insertedChip = some chip
          ∧ env.sendCommand (s1.probesSent - 1) = .reply buf
          ∧ s1.removalIdentifier = processCardId env.formatHexString buf
          ∧ s1.removalIdentifier ≠ []
          ∧ s1.removalIdentifier ≠ chip.identifier
          ∧ s1.d_insertedChip = none)
    ∧ (s.removalIdentifier ≠ [] → env.createChip (chipType s) s.removalIdentifier = .created →
        ∃ s2, waitInsertion env maxwait (fuel + 1) s = some (.returned true, s2)
          ∧ s2.d_insertedChip = some (createdChip (chipType s) s.removalIdentifier)
          ∧ getChipList s2 = [createdChip (chipType s) s.removalIdentifier]
          ∧ s2.probesSent = s.probesSent ∧ s2.ticks = s.ticks
          ∧ s2.removalIdentifier = []) := by
  refine ⟨?_, ⟨removalEntry_removalIdentifier s,
    fun pending => waitRemoval_ignores_pending env maxwait fuel s pending⟩, ?_, ?_, ?_⟩
  · intro b h
    rw [waitInsertion_eq] at h
    cases hl : insertionLoop env maxwait fuel [] 0
        (suppressLog s.settings.SeeWaitInsertionLog s) with
    | none => simp [hl] at h
    | some r =>
      obtain ⟨o2, s2⟩ := r
      rw [hl] at h
      cases o2 with
      | thrown e => simp [insertionExit] at h
      | returned b2 =>
        simp only [Option.map_some', insertionExit, Option.some.injEq, Prod.mk.injEq] at h
        rw [← h.2]
        rfl
  · intro h ho
    rcases waitRemoval_pending env maxwait fuel s s1 o h with h1 | h1
    · exact absurd h1.1 ho
    · exact h1.2
  · intro h
    exact waitRemoval_true env maxwait fuel s s1 h
  · intro hpend hcreate
    obtain ⟨s2, h2, hc2, hp2, hk2, hr2, _⟩ :=
      waitInsertion_pending env s maxwait fuel hpend hcreate
    have hc3 : s2.d_insertedChip = some (createdChip (chipType s) s.removalIdentifier) := hc2
    exact ⟨s2, h2, hc3, by simp [getChipList, hc3], hp2, hk2, hr2⟩

theorem pending_identifier_lifecycle_witness :
    (waitRemoval (envOfWire wire123) 500 1 presentReader = some (.returned true, replacedReader)
      ∧ ∃ chip buf, presentReader.d_insertedChip = some chip
          ∧ (envOfWire wire123).sendCommand (replacedReader.probesSent - 1) = .reply buf
          ∧ replacedReader.removalIdentifier
              = processCardId (envOfWire wire123).formatHexString buf
          ∧ replacedReader.removalIdentifier ≠ []
          ∧ replacedReader.removalIdentifier ≠ chip.identifier
          ∧ replacedReader.d_insertedChip = none)
    ∧ (waitInsertion (envOfWire silentWire) 500 1 idleReader
        = some (.returned false, polledReader)
      ∧ polledReader.removalIdentifier = [])
    ∧ (replacedReader.removalIdentifier = [0, 0, 0, 0, 0, 123]
      ∧ ∃ s2, waitInsertion (envOfWire silentWire) 500 1 replacedReader
          = some (.returned true, s2)
        ∧ s2.d_insertedChip
            = some (createdChip (chipType replacedReader) replacedReader.removalIdentifier)
        ∧ getChipList s2
            = [createdChip (chipType replacedReader) replacedReader.removalIdentifier]
        ∧ s2.probesSent = replacedReader.probesSent ∧ s2.ticks = replacedReader.ticks
        ∧ s2.removalIdentifier = []) :=
  ⟨⟨rfl, (pending_identifier_lifecycle (envOfWire wire123) 500 1 presentReader replacedReader
      (.returned true)).2.2.2.1 rfl⟩,
   ⟨rfl, (pending_identifier_lifecycle (envOfWire silentWire) 500 1 idleReader polledReader
      (.returned false)).1 false rfl⟩,
   ⟨rfl, (pending_identifier_lifecycle (envOfWire silentWire) 500 0 replacedReader
      replacedReader (.returned true)).2.2.2.2 (by decide) rfl⟩⟩

/-! ### The log flag is restored on every exit -/

theorem insertionExit_log (oldValue : Bool) (r : Outcome Bool × Reader) :
    (insertionExit oldValue r).2.settings.IsLogEnabled = oldValue := by
  obtain ⟨o, s1⟩ := r
  cases o <;> rfl

/-- C5. Whenever a call of `waitInsertion` or `waitRemoval` ends, by returning true, by
returning false or by an exception leaving it, the global `IsLogEnabled` flag has the value it
had before the call, for every initial value of the flag and of the two overrides. -/
theorem log_flag_restored (env : Env) (maxwait fuel : Nat) (s : Reader)
    (r : Outcome Bool × Reader) :
    (waitInsertion env maxwait fuel s = some r →
      r.2.settings.IsLogEnabled = s.settings.IsLogEnabled)
    ∧ (waitRemoval env maxwait fuel s = some r →
      r.2.settings.IsLogEnabled = s.settings.IsLogEnabled) := by
  constructor
  · intro h
    rw [waitInsertion_eq] at h
    cases hl : insertionLoop env maxwait fuel [] 0
        (suppressLog s.settings.SeeWaitInsertionLog s) with
    | none => simp [hl] at h
    | some r2 =>
      rw [hl] at h
      simp only [Option.map_some', Option.some.injEq] at h
      rw [← h]
      exact insertionExit_log _ _
  · intro h
    cases hchip : s.d_insertedChip with
    | none =>
      rw [waitRemoval_no_chip env maxwait fuel s hchip] at h
      simp only [Option.some.injEq] at h
      rw [← h]
      rfl
    | some chip =>
      rw [waitRemoval_of_chip env maxwait fuel s chip hchip] at h
      cases hl : removalLoop env maxwait chip fuel 0 (removalEntry s) with
      | none => simp [hl] at h
      | some r2 =>
        rw [hl] at h
        simp only [Option.map_some', Option.some.injEq] at h
        rw [← h]
        rfl

theorem log_flag_restored_witness :
    (suppressLog idleReader.settings.SeeWaitInsertionLog idleReader).settings.IsLogEnabled = false
    ∧ (waitInsertion (envOfWire wire123) 500 1 idleReader = some (.returned true, insertedReader)
      ∧ insertedReader.settings.IsLogEnabled = idleReader.settings.IsLogEnabled)
    ∧ (waitInsertion (envOfWire silentWire) 500 1 idleReader
        = some (.returned false, polledReader)
      ∧ polledReader.settings.IsLogEnabled = idleReader.settings.IsLogEnabled)
    ∧ (waitInsertion (envOfWire brokenWire) 500 1 idleReader
        = some (.thrown .unknown, probedReader)
      ∧ probedReader.settings.IsLogEnabled = idleReader.settings.IsLogEnabled)
    ∧ (waitRemoval (envOfWire wire123) 500 1 presentReader
        = some (.returned true, replacedReader)
      ∧ replacedReader.settings.IsLogEnabled = presentReader.settings.IsLogEnabled) :=
  ⟨rfl,
   ⟨rfl, (log_flag_restored (envOfWire wire123) 500 1 idleReader _).1 rfl⟩,
   ⟨rfl, (log_flag_restored (envOfWire silentWire) 500 1 idleReader _).1 rfl⟩,
   ⟨rfl, (log_flag_restored (envOfWire brokenWire) 500 1 idleReader _).1 rfl⟩,
   ⟨rfl, (log_flag_restored (envOfWire wire123) 500 1 presentReader _).2 rfl⟩⟩

/-! ### Port configurator: one retry, and what becomes of a failure -/

theorem applySettings_calls (env : Env) (r : Nat) (s : Reader) :
    (applySettings env r s).2.settingsCalls = s.settingsCalls + 1 := by
  unfold applySettings
  cases env.setConfiguration s.settingsCalls (s.ports r).deviceName <;> rfl

theorem portReopen_calls (env : Env) (r : Nat) (s : Reader) :
    (portReopen env r s).2.settingsCalls = s.settingsCalls := by
  unfold portReopen
  cases env.reopenPort (s.ports r).deviceName <;> rfl

/-- The body of `configure` applies settings once more than the call made for the retry. -/
theorem configureBody_calls_le (env : Env) (again : Reader → Outcome Unit × Reader) (k : Nat)
    (hagain : ∀ s1, (again s1).2.settingsCalls ≤ s1.settingsCalls + k)
    (port : Option Nat) (retry : Bool) (s : Reader) :
    (configureBody env again port retry s).2.settingsCalls ≤ s.settingsCalls + 1 + k := by
  unfold configureBody
  cases port with
  | none => simp only; omega
  | some r =>
    by_cases hname : (s.ports r).deviceName = ""
    · simp only [hname, if_true]; omega
    · simp only [hname, if_false]
      rcases ha : applySettings env r s with ⟨o, s1⟩
      have hc : s1.settingsCalls = s.settingsCalls + 1 := by
        have := applySettings_calls env r s
        rw [ha] at this
        exact this
      cases o with
      | returned u => simp only; omega
      | thrown e =>
        simp only
        split
        · split
          · rcases hp : portReopen env r
              { s1 with portOps := s1.portOps ++ [.backoff s1.settings.ConfigurationRetryTimeout] }
              with ⟨o3, s3⟩
            have hr : s3.settingsCalls = s1.settingsCalls := by
              have := portReopen_calls env r
                { s1 with
                  portOps := s1.portOps ++ [.backoff s1.settings.ConfigurationRetryTimeout] }
              rw [hp] at this
              exact this
            cases o3 with
            | thrown e2 => simp only; omega
            | returned u =>
              simp only
              have := hagain s3
              omega
          · simp only; omega
        · simp only; omega

/-- Settings are applied at most twice in a call of `configure`. -/
theorem configure_calls_le (env : Env) (port : Option Nat) (retry : Bool) (s : Reader) :
    (configure env port retry s).2.settingsCalls ≤ s.settingsCalls + 2 := by
  unfold configure
  refine configureBody_calls_le env _ 1 (fun s1 => ?_) port retry s
  exact configureBody_calls_le env _ 0 (fun s2 => Nat.le_refl _) s1.d_port false s1

/-- C6 at a named endpoint whose line settings are rejected with a `std::exception` on the
first attempt and again on the retry made after the reopen: `configure(port, true)` returns
normally after two applications instead of raising, and `connectToReader`, which opens the
port and calls `configure()`, returns true although the line settings never became the live
configuration of the port. -/
theorem configure_swallows_second_failure :
    (idleReader.ports 0).deviceName = "COM1"
    ∧ rejectingEnv.setConfiguration 0 "COM1" = some .stdException
    ∧ rejectingEnv.setConfiguration 1 "COM1" = some .stdException
    ∧ (configure rejectingEnv (some 0) true idleReader).1 = .returned ()
    ∧ (configure rejectingEnv (some 0) true idleReader).2.settingsCalls = 2
    ∧ (configure rejectingEnv (some 0) true idleReader).2.portOps
        = [.settingsApplied 0, .backoff 500, .reopened 0, .settingsApplied 0]
    ∧ (connectToReader rejectingEnv idleReader).1 = .returned true
    ∧ ((connectToReader rejectingEnv idleReader).2.ports 0).lineConfigured = false
    ∧ (connectToReader rejectingEnv idleReader).2.portOps
        = [.opened 0, .settingsApplied 0, .backoff 500, .reopened 0, .settingsApplied 0] := by
  decide

/-- What `configure(port, true)` does with a failing retry, in general: when the first
application fails with a `std::exception`, the reopen succeeds and the endpoint of the reader
is named, settings are applied a second time, to that endpoint; a `std::exception` raised by
the second application is dropped and `configure` returns normally, any other exception
reaches the caller. Settings are never applied more than twice. -/
theorem configure_retry_failure (env : Env) (s : Reader) (r r2 : Nat) (e1 e2 : Exc)
    (hname : (s.ports r).deviceName ≠ "")
    (h1 : env.setConfiguration s.settingsCalls (s.ports r).deviceName = some e1)
    (he1 : e1.isStd = true)
    (hre : env.reopenPort (s.ports r).deviceName = none)
    (hown : s.d_port = some r2) (hname2 : (s.ports r2).deviceName ≠ "")
    (h2 : env.setConfiguration (s.settingsCalls + 1) (s.ports r2).deviceName = some e2) :
    (configure env (some r) true s).1 = (if e2.isStd then .returned () else .thrown e2)
    ∧ (configure env (some r) true s).2.settingsCalls = s.settingsCalls + 2
    ∧ ∀ port retry, (configure env port retry s).2.settingsCalls ≤ s.settingsCalls + 2 := by
  refine ⟨?_, ?_, fun port retry => configure_calls_le env port retry s⟩
  · by_cases hr : r2 = r
    · subst hr
      cases he2 : e2.isStd <;>
        simp [configure, configureBody, applySettings, portReopen, setPort, hname, h1, he1, hre,
          hown, h2, he2]
    · cases he2 : e2.isStd <;>
        simp [configure, configureBody, applySettings, portReopen, setPort, hname, h1, he1, hre,
          hown, hname2, h2, he2, hr]
  · by_cases hr : r2 = r
    · subst hr
      cases he2 : e2.isStd <;>
        simp [configure, configureBody, applySettings, portReopen, setPort, hname, h1, he1, hre,
          hown, h2, he2]
    · cases he2 : e2.isStd <;>
        simp [configure, configureBody, applySettings, portReopen, setPort, hname, h1, he1, hre,
          hown, hname2, h2, he2, hr]

theorem configure_retry_failure_witness :
    (configure rejectingEnv (some 0) true idleReader).1
      = (if Exc.stdException.isStd then .returned () else .thrown .stdException)
    ∧ (configure rejectingEnv (some 0) true idleReader).2.settingsCalls
      = idleReader.settingsCalls + 2 :=
  have h := configure_retry_failure rejectingEnv idleReader 0 0 .stdException .stdException
    (by decide) rfl rfl rfl rfl (by decide) rfl
  ⟨h.1, h.2.1⟩

/-! ### Auto-detector: which candidate is accepted -/

/-- C7 at three candidates of which the first answers the probe with an empty reply and the
second with a non-empty one: `startAutoDetect` commits to the first candidate (port object 1,
`COM1`), sets the auto-detected flag and never opens the second. -/
theorem startAutoDetect_accepts_empty_reply :
    detectEnv.detectCommand "COM1" = .reply []
    ∧ detectEnv.detectCommand "COM2" = .reply [49, 50, 51]
    ∧ (startAutoDetect detectEnv unnamedReader).d_port = some 1
    ∧ ((startAutoDetect detectEnv unnamedReader).ports 1).deviceName = "COM1"
    ∧ (startAutoDetect detectEnv unnamedReader).d_isAutoDetected = true
    ∧ (startAutoDetect detectEnv unnamedReader).portOps
        = [.opened 1, .settingsApplied 1, .probed 1, .closed 1] := by
  decide

/-! ### A failed probe counts as an empty reply -/

theorem insertionCreate_relabel (env : Env) (id : ByteVector) (s : Reader)
    (calls : List (String × ByteVector)) :
    ∃ calls1, insertionCreate (swallowing env) id { s with createCalls := calls }
      = ((insertionCreate env id s).1, (insertionCreate env id s).2.1,
         { (insertionCreate env id s).2.2 with createCalls := calls1 }) := by
  unfold insertionCreate
  by_cases hlen : id.length > 0
  · simp only [hlen, if_true]
    have hc : (swallowing env).createChip = env.createChip := rfl
    have ht : chipType { s with createCalls := calls } = chipType s := rfl
    rw [hc, ht]
    cases env.createChip (chipType s) id with
    | created => exact ⟨_, rfl⟩
    | raises e => exact ⟨_, rfl⟩
  · simp only [hlen, if_false]
    exact ⟨_, rfl⟩

theorem insertionCreate_stale (env : Env) (id : ByteVector) (s : Reader)
    (h : StaleFails env id s) :
    ∃ t calls1, (∀ e, t ≠ .escaped e)
      ∧ insertionCreate env id s = (t, false, { s with createCalls := calls1 }) := by
  unfold insertionCreate
  rcases h with h | ⟨e, h, he⟩
  · subst h
    exact ⟨.completed, s.createCalls, completed_ne_escaped, rfl⟩
  · by_cases hlen : id.length > 0
    · simp only [hlen, if_true, h]
      exact ⟨_, _, ofExc_ne_escaped_of_isStd e he, rfl⟩
    · simp only [hlen, if_false]
      exact ⟨.completed, s.createCalls, completed_ne_escaped, rfl⟩

theorem staleFails_of_insertionCreate (env : Env) (id : ByteVector) (s s1 : Reader) (t : TryEnd)
    (h : insertionCreate env id s = (t, false, s1)) (ht : ∀ e, t ≠ .escaped e) :
    StaleFails env id s1 := by
  unfold insertionCreate at h
  by_cases hlen : id.length > 0
  · simp only [hlen, if_true] at h
    cases hc : env.createChip (chipType s) id with
    | created => rw [hc] at h; simp at h
    | raises e =>
      rw [hc] at h
      simp only [Prod.mk.injEq] at h
      obtain ⟨h1, _, h3⟩ := h
      refine Or.inr ⟨e, ?_, ?_⟩
      · rw [← h3]; exact hc
      · cases he : e.isStd with
        | true => rfl
        | false =>
          exfalso
          apply ht e
          rw [← h1]
          simp [TryEnd.ofExc, he]
  · have : id = [] := by
      cases id with
      | nil => rfl
      | cons a l => simp at hlen
    exact Or.inl this

theorem insertionTry_swallowing (env : Env)
    (hstd : ∀ n e, env.sendCommand n = .raises e → e.isStd = true)
    (id : ByteVector) (s : Reader) (calls : List (String × ByteVector))
    (hinv : StaleFails env id s) :
    ∃ tA tB id1 b s1 calls1,
      insertionTry env id s = (tA, id1, b, s1)
      ∧ insertionTry (swallowing env) id { s with createCalls := calls }
          = (tB, id1, b, { s1 with createCalls := calls1 })
      ∧ (tA = tB ∨ ((∀ e, tA ≠ .escaped e) ∧ (∀ e, tB ≠ .escaped e)))
      ∧ (b = false → (∀ e, tA ≠ .escaped e) → StaleFails env id1 s1) := by
  by_cases hpend : s.removalIdentifier.length > 0
  · obtain ⟨calls1, hB⟩ := insertionCreate_relabel env s.removalIdentifier s calls
    refine ⟨(insertionCreate env s.removalIdentifier s).1, _, s.removalIdentifier,
      (insertionCreate env s.removalIdentifier s).2.1,
      (insertionCreate env s.removalIdentifier s).2.2, calls1, ?_, ?_, Or.inl rfl, ?_⟩
    · simp only [insertionTry, hpend, if_true]
    · simp only [insertionTry, hpend, if_true]
      rw [hB]
    · intro hb ht
      refine staleFails_of_insertionCreate env s.removalIdentifier s _ _ ?_ ht
      rw [← hb]
  · cases hw : env.sendCommand s.probesSent with
    | raises e =>
      have hw2 : (swallowing env).sendCommand s.probesSent = .reply [] := by
        simp [swallowing, swallowFailures, hw]
      have hinv1 : StaleFails env id { s with probesSent := s.probesSent + 1 } := hinv
      obtain ⟨t, c, ht, hA⟩ := insertionCreate_stale env id _ hinv1
      obtain ⟨calls1, hB⟩ := insertionCreate_relabel env id
        { s with probesSent := s.probesSent + 1 } calls
      rw [hA] at hB
      refine ⟨TryEnd.ofExc e, t, id, false, { s with probesSent := s.probesSent + 1 }, calls1,
        ?_, ?_, Or.inr ⟨ofExc_ne_escaped_of_isStd e (hstd _ e hw), ht⟩, fun _ _ => hinv1⟩
      · simp only [insertionTry, hpend, if_false, hw]
      · simp only [insertionTry, hpend, if_false, hw2, List.length_nil, gt_iff_lt,
          Nat.lt_irrefl]
        exact congrArg (fun r => (r.1, id, r.2.1, r.2.2)) hB
    | reply tmp =>
      have hw2 : (swallowing env).sendCommand s.probesSent = .reply tmp := by
        simp [swallowing, swallowFailures, hw]
      have hf : (swallowing env).formatHexString = env.formatHexString := rfl
      obtain ⟨calls1, hB⟩ := insertionCreate_relabel env
        (if tmp.length > 0 then processCardId env.formatHexString tmp else id)
        { s with probesSent := s.probesSent + 1 } calls
      refine ⟨(insertionCreate env
          (if tmp.length > 0 then processCardId env.formatHexString tmp else id)
          { s with probesSent := s.probesSent + 1 }).1, _,
        (if tmp.length > 0 then processCardId env.formatHexString tmp else id),
        (insertionCreate env
          (if tmp.length > 0 then processCardId env.formatHexString tmp else id)
          { s with probesSent := s.probesSent + 1 }).2.1,
        (insertionCreate env
          (if tmp.length > 0 then processCardId env.formatHexString tmp else id)
          { s with probesSent := s.probesSent + 1 }).2.2, calls1, ?_, ?_, Or.inl rfl, ?_⟩
      · simp only [insertionTry, hpend, if_false, hw]
      · simp only [insertionTry, hpend, if_false, hw2, hf]
        exact congrArg (fun r => (r.1,
          (if tmp.length > 0 then processCardId env.formatHexString tmp else id),
          r.2.1, r.2.2)) hB
      · intro hb ht
        refine staleFails_of_insertionCreate env _ { s with probesSent := s.probesSent + 1 }
          _ _ ?_ ht
        rw [← hb]

theorem insertionLoop_swallowing_step (env : Env) (maxwait fuel cw : Nat)
    (id id1 : ByteVector) (s s1 : Reader) (calls calls1 : List (String × ByteVector))
    (tA tB : TryEnd) (b : Bool)
    (ih : ∀ (id : ByteVector) (cw : Nat) (s : Reader) (calls : List (String × ByteVector)),
      StaleFails env id s →
      SameUpToCreateCalls (insertionLoop env maxwait fuel id cw s)
        (insertionLoop (swallowing env) maxwait fuel id cw { s with createCalls := calls }))
    (hA : insertionTry env id s = (tA, id1, b, s1))
    (hB : insertionTry (swallowing env) id { s with createCalls := calls }
      = (tB, id1, b, { s1 with createCalls := calls1 }))
    (hnA : ∀ e, tA ≠ .escaped e) (hnB : ∀ e, tB ≠ .escaped e)
    (hinv : b = false → StaleFails env id1 s1) :
    SameUpToCreateCalls (insertionLoop env maxwait (fuel + 1) id cw s)
      (insertionLoop (swallowing env) maxwait (fuel + 1) id cw
        { s with createCalls := calls }) := by
  cases b with
  | true =>
    rw [insertionLoop_inserted env maxwait fuel cw id id1 s s1 tA hA hnA,
      insertionLoop_inserted (swallowing env) maxwait fuel cw id id1 _ _ tB hB hnB]
    exact Or.inr ⟨_, s1, calls1, rfl, rfl⟩
  | false =>
    by_cases hc : maxwait = 0 ∨ (cw + 500) % 2 ^ 32 < maxwait
    · rw [insertionLoop_continue env maxwait fuel cw id id1 s s1 tA hA hnA hc,
        insertionLoop_continue (swallowing env) maxwait fuel cw id id1 _ _ tB hB hnB hc]
      exact ih id1 _ { s1 with ticks := s1.ticks + 1 } calls1 (hinv rfl)
    · rw [insertionLoop_timeout env maxwait fuel cw id id1 s s1 tA hA hnA hc,
        insertionLoop_timeout (swallowing env) maxwait fuel cw id id1 _ _ tB hB hnB hc]
      exact Or.inr ⟨_, { s1 with ticks := s1.ticks + 1 }, calls1, rfl, rfl⟩

theorem insertionLoop_swallowing (env : Env)
    (hstd : ∀ n e, env.sendCommand n = .raises e → e.isStd = true) (maxwait : Nat) :
    ∀ (fuel : Nat) (id : ByteVector) (cw : Nat) (s : Reader)
      (calls : List (String × ByteVector)), StaleFails env id s →
      SameUpToCreateCalls (insertionLoop env maxwait fuel id cw s)
        (insertionLoop (swallowing env) maxwait fuel id cw { s with createCalls := calls }) := by
  intro fuel
  induction fuel with
  | zero => intro id cw s calls _; exact Or.inl ⟨rfl, rfl⟩
  | succ fuel ih =>
    intro id cw s calls hinv
    obtain ⟨tA, tB, id1, b, s1, calls1, hA, hB, hrel, hinv1⟩ :=
      insertionTry_swallowing env hstd id s calls hinv
    rcases hrel with heq | ⟨hnA, hnB⟩
    · subst heq
      cases tA with
      | escaped e =>
        rw [insertionLoop_escaped env maxwait fuel cw id id1 s s1 e b hA,
          insertionLoop_escaped (swallowing env) maxwait fuel cw id id1 _ _ e b hB]
        exact Or.inr ⟨_, s1, calls1, rfl, rfl⟩
      | completed =>
        exact insertionLoop_swallowing_step env maxwait fuel cw id id1 s s1 calls calls1 _ _ b
          ih hA hB completed_ne_escaped completed_ne_escaped
          (fun hb => hinv1 hb completed_ne_escaped)
      | swallowed =>
        exact insertionLoop_swallowing_step env maxwait fuel cw id id1 s s1 calls calls1 _ _ b
          ih hA hB swallowed_ne_escaped swallowed_ne_escaped
          (fun hb => hinv1 hb swallowed_ne_escaped)
    · exact insertionLoop_swallowing_step env maxwait fuel cw id id1 s s1 calls calls1 tA tB b
        ih hA hB hnA hnB (fun hb => hinv1 hb hnA)

theorem removalTry_swallowing (env : Env)
    (hstd : ∀ n e, env.sendCommand n = .raises e → e.isStd = true)
    (chip : Chip) (s : Reader) :
    ∃ tA tB b s1, removalTry env chip s = (tA, b, s1)
      ∧ removalTry (swallowing env) chip s = (tB, b, s1)
      ∧ (∀ e, tA ≠ .escaped e) ∧ (∀ e, tB ≠ .escaped e) := by
  cases hw : env.sendCommand s.probesSent with
  | raises e =>
    have hw2 : (swallowing env).sendCommand s.probesSent = .reply [] := by
      simp [swallowing, swallowFailures, hw]
    refine ⟨TryEnd.ofExc e, .completed, false, { s with probesSent := s.probesSent + 1 },
      ?_, ?_, ofExc_ne_escaped_of_isStd e (hstd _ e hw), completed_ne_escaped⟩
    · simp only [removalTry, hw]
    · simp only [removalTry, hw2, List.length_nil, gt_iff_lt, Nat.lt_irrefl, if_false]
  | reply buf =>
    have hw2 : (swallowing env).sendCommand s.probesSent = .reply buf := by
      simp [swallowing, swallowFailures, hw]
    have hf : (swallowing env).formatHexString = env.formatHexString := rfl
    have hA : removalTry env chip s = (.completed, (removalTry env chip s).2.1,
        (removalTry env chip s).2.2) := by
      simp only [removalTry, hw]
      split
      · split <;> rfl
      · rfl
    refine ⟨.completed, .completed, _, _, hA, ?_, completed_ne_escaped, completed_ne_escaped⟩
    rw [← hA]
    simp only [removalTry, hw, hw2, hf]

theorem removalLoop_swallowing (env : Env)
    (hstd : ∀ n e, env.sendCommand n = .raises e → e.isStd = true)
    (maxwait : Nat) (chip : Chip) :
    ∀ (fuel cw : Nat) (s : Reader),
      removalLoop env maxwait chip fuel cw s
        = removalLoop (swallowing env) maxwait chip fuel cw s := by
  intro fuel
  induction fuel with
  | zero => intro cw s; rfl
  | succ fuel ih =>
    intro cw s
    obtain ⟨tA, tB, b, s1, hA, hB, hnA, hnB⟩ := removalTry_swallowing env hstd chip s
    cases b with
    | true =>
      rw [removalLoop_removed env maxwait chip fuel cw s s1 tA hA hnA,
        removalLoop_removed (swallowing env) maxwait chip fuel cw s s1 tB hB hnB]
    | false =>
      by_cases hc : maxwait = 0 ∨ (cw + 500) % 2 ^ 32 < maxwait
      · rw [removalLoop_continue env maxwait chip fuel cw s s1 tA hA hnA hc,
          removalLoop_continue (swallowing env) maxwait chip fuel cw s s1 tB hB hnB hc]
        exact ih _ _
      · rw [removalLoop_timeout env maxwait chip fuel cw s s1 tA hA hnA hc,
          removalLoop_timeout (swallowing env) maxwait chip fuel cw s s1 tB hB hnB hc]

theorem observable_insertionExit (oldValue : Bool) (o : Outcome Bool) (s1 : Reader)
    (calls : List (String × ByteVector)) :
    observable (insertionExit oldValue (o, { s1 with createCalls := calls }))
      = observable (insertionExit oldValue (o, s1)) := by
  cases o <;> rfl

theorem insertionCreate_escaped (env : Env) (id : ByteVector) (s : Reader) (e : Exc)
    (h : (insertionCreate env id s).1 = .escaped e) :
    env.createChip (chipType s) id = .raises e ∧ e.isStd = false := by
  unfold insertionCreate at h
  by_cases hlen : id.length > 0
  · simp only [hlen, if_true] at h
    cases hc : env.createChip (chipType s) id with
    | created => rw [hc] at h; simp at h
    | raises e2 =>
      rw [hc] at h
      cases he : e2.isStd with
      | true => simp [TryEnd.ofExc, he] at h
      | false =>
        simp only [TryEnd.ofExc, he, Bool.false_eq_true, if_false, TryEnd.escaped.injEq] at h
        subst h
        exact ⟨rfl, he⟩
  · simp [hlen] at h

theorem insertionTry_escaped (env : Env)
    (hstd : ∀ n e, env.sendCommand n = .raises e → e.isStd = true)
    (id : ByteVector) (s : Reader) (e : Exc)
    (h : (insertionTry env id s).1 = .escaped e) :
    ∃ t i, env.createChip t i = .raises e ∧ e.isStd = false := by
  unfold insertionTry at h
  by_cases hpend : s.removalIdentifier.length > 0
  · simp only [hpend, if_true] at h
    exact ⟨_, _, insertionCreate_escaped env _ _ e h⟩
  · simp only [hpend, if_false] at h
    cases hw : env.sendCommand s.probesSent with
    | raises e2 =>
      rw [hw] at h
      simp [TryEnd.ofExc, hstd _ e2 hw] at h
    | reply tmp =>
      rw [hw] at h
      exact ⟨_, _, insertionCreate_escaped env _ _ e h⟩

theorem insertionLoop_thrown (env : Env)
    (hstd : ∀ n e, env.sendCommand n = .raises e → e.isStd = true) (maxwait : Nat) :
    ∀ (fuel : Nat) (id : ByteVector) (cw : Nat) (s s1 : Reader) (e : Exc),
      insertionLoop env maxwait fuel id cw s = some (.thrown e, s1) →
      ∃ t i, env.createChip t i = .raises e ∧ e.isStd = false := by
  intro fuel
  induction fuel with
  | zero => intro id cw s s1 e h; simp [insertionLoop] at h
  | succ fuel ih =>
    intro id cw s s1 e h
    rcases ht : insertionTry env id s with ⟨t, id1, b, s2⟩
    cases t with
    | escaped e2 =>
      rw [insertionLoop_escaped env maxwait fuel cw id id1 s s2 e2 b ht] at h
      simp only [Option.some.injEq, Prod.mk.injEq, Outcome.thrown.injEq] at h
      rw [← h.1]
      exact insertionTry_escaped env hstd id s e2 (by rw [ht])
    | completed =>
      cases b with
      | true =>
        rw [insertionLoop_inserted env maxwait fuel cw id id1 s s2 _ ht completed_ne_escaped]
          at h
        simp at h
      | false =>
        by_cases hc : maxwait = 0 ∨ (cw + 500) % 2 ^ 32 < maxwait
        · rw [insertionLoop_continue env maxwait fuel cw id id1 s s2 _ ht completed_ne_escaped
            hc] at h
          exact ih _ _ _ _ e h
        · rw [insertionLoop_timeout env maxwait fuel cw id id1 s s2 _ ht completed_ne_escaped
            hc] at h
          simp at h
    | swallowed =>
      cases b with
      | true =>
        rw [insertionLoop_inserted env maxwait fuel cw id id1 s s2 _ ht swallowed_ne_escaped]
          at h
        simp at h
      | false =>
        by_cases hc : maxwait = 0 ∨ (cw + 500) % 2 ^ 32 < maxwait
        · rw [insertionLoop_continue env maxwait fuel cw id id1 s s2 _ ht swallowed_ne_escaped
            hc] at h
          exact ih _ _ _ _ e h
        · rw [insertionLoop_timeout env maxwait fuel cw id id1 s s2 _ ht swallowed_ne_escaped
            hc] at h
          simp at h

theorem removalLoop_returns (env : Env)
    (hstd : ∀ n e, env.sendCommand n = .raises e → e.isStd = true)
    (maxwait : Nat) (chip : Chip) :
    ∀ (fuel cw : Nat) (s s1 : Reader) (o : Outcome Bool),
      removalLoop env maxwait chip fuel cw s = some (o, s1) → ∃ b, o = .returned b := by
  intro fuel
  induction fuel with
  | zero => intro cw s s1 o h; simp [removalLoop] at h
  | succ fuel ih =>
    intro cw s s1 o h
    obtain ⟨tA, _, b, s2, hA, _, hnA, _⟩ := removalTry_swallowing env hstd chip s
    cases b with
    | true =>
      rw [removalLoop_removed env maxwait chip fuel cw s s2 tA hA hnA] at h
      simp only [Option.some.injEq, Prod.mk.injEq] at h
      exact ⟨true, h.1.symm⟩
    | false =>
      by_cases hc : maxwait = 0 ∨ (cw + 500) % 2 ^ 32 < maxwait
      · rw [removalLoop_continue env maxwait chip fuel cw s s2 tA hA hnA hc] at h
        exact ih _ _ _ _ h
      · rw [removalLoop_timeout env maxwait chip fuel cw s s2 tA hA hnA hc] at h
        simp only [Option.some.injEq, Prod.mk.injEq] at h
        exact ⟨false, h.1.symm⟩

/-- C8. When every failing probe fails with a transport exception (a `std::exception`),
`waitInsertion` and `waitRemoval` end with the same outcome and leave the same reader, tick
count included, as on the wire where each failing probe is replaced by an empty reply;
`waitRemoval` then never raises, and `waitInsertion` raises only an exception that the chip
factory raised and that is not a `std::exception`. -/
theorem failed_probe_as_empty_reply (env : Env)
    (hstd : ∀ n e, env.sendCommand n = .raises e → e.isStd = true)
    (maxwait fuel : Nat) (s : Reader) :
    (waitInsertion env maxwait fuel s).map observable
      = (waitInsertion (swallowing env) maxwait fuel s).map observable
    ∧ waitRemoval env maxwait fuel s = waitRemoval (swallowing env) maxwait fuel s
    ∧ (∀ o s1, waitRemoval env maxwait fuel s = some (o, s1) → ∃ b, o = .returned b)
    ∧ (∀ e s1, waitInsertion env maxwait fuel s = some (.thrown e, s1) →
        ∃ t i, env.createChip t i = .raises e ∧ e.isStd = false) := by
  refine ⟨?_, ?_, ?_, ?_⟩
  · rw [waitInsertion_eq, waitInsertion_eq]
    have h := insertionLoop_swallowing env hstd maxwait fuel [] 0
      (suppressLog s.settings.SeeWaitInsertionLog s)
      (suppressLog s.settings.SeeWaitInsertionLog s).createCalls (Or.inl rfl)
    rcases h with ⟨hA, hB⟩ | ⟨o, s1, calls, hA, hB⟩
    · rw [hA]
      have hB2 : insertionLoop (swallowing env) maxwait fuel [] 0
          (suppressLog s.settings.SeeWaitInsertionLog s) = none := hB
      rw [hB2]
    · rw [hA]
      have hB2 : insertionLoop (swallowing env) maxwait fuel [] 0
          (suppressLog s.settings.SeeWaitInsertionLog s)
          = some (o, { s1 with createCalls := calls }) := hB
      rw [hB2]
      simp only [Option.map_some', observable_insertionExit]
  · cases hchip : s.d_insertedChip with
    | none => rw [waitRemoval_no_chip _ _ _ _ hchip, waitRemoval_no_chip _ _ _ _ hchip]
    | some chip =>
      rw [waitRemoval_of_chip _ _ _ _ chip hchip, waitRemoval_of_chip _ _ _ _ chip hchip,
        removalLoop_swallowing env hstd]
  · intro o s1 h
    cases hchip : s.d_insertedChip with
    | none =>
      rw [waitRemoval_no_chip _ _ _ _ hchip] at h
      simp only [Option.some.injEq, Prod.mk.injEq] at h
      exact ⟨false, h.1.symm⟩
    | some chip =>
      rw [waitRemoval_of_chip _ _ _ _ chip hchip] at h
      cases hl : removalLoop env maxwait chip fuel 0 (removalEntry s) with
      | none => simp [hl] at h
      | some r =>
        obtain ⟨o2, s2⟩ := r
        rw [hl] at h
        simp only [Option.map_some', Option.some.injEq, Prod.mk.injEq] at h
        rw [← h.1]
        exact removalLoop_returns env hstd maxwait chip fuel 0 _ s2 o2 hl
  · intro e s1 h
    rw [waitInsertion_eq] at h
    cases hl : insertionLoop env maxwait fuel [] 0
        (suppressLog s.settings.SeeWaitInsertionLog s) with
    | none => simp [hl] at h
    | some r =>
      obtain ⟨o2, s2⟩ := r
      rw [hl] at h
      cases o2 with
      | returned b => simp [insertionExit] at h
      | thrown e2 =>
        simp only [Option.map_some', insertionExit, Option.some.injEq, Prod.mk.injEq,
          Outcome.thrown.injEq] at h
        rw [← h.1]
        exact insertionLoop_thrown env hstd maxwait fuel [] 0 _ s2 e2 hl

theorem failed_probe_as_empty_reply_witness :
    (waitInsertion (envOfWire noisyWire) 1000 2 idleReader).map (fun r => (r.1, r.2.ticks))
      = some (.returned true, 1)
    ∧ (waitInsertion (envOfWire noisyWire) 1000 2 idleReader).map observable
      = (waitInsertion (swallowing (envOfWire noisyWire)) 1000 2 idleReader).map observable :=
  ⟨by decide,
   (failed_probe_as_empty_reply (envOfWire noisyWire)
      (by
        intro n e h
        by_cases hn : n = 0
        · simp [envOfWire, noisyWire, hn] at h
          rw [← h]; rfl
        · simp [envOfWire, noisyWire, hn] at h)
      1000 2 idleReader).1⟩

/-! ### Connection lifecycle -/

theorem startAutoDetect_named (env : Env) (s : Reader) (r : Nat)
    (hport : s.d_port = some r) (hname : (s.ports r).deviceName ≠ "") :
    startAutoDetect env s = s := by
  simp only [startAutoDetect, hport, hname, if_false]

/-- C9. `connectToReader` called while the endpoint has a non-empty device name and is open
returns true and leaves the whole state as it was: no port is opened, reopened or configured
(the port record and the count of applied settings are unchanged). Two calls in a row
therefore both return true and the second changes nothing. -/
theorem connectToReader_open_noop (env : Env) (s : Reader) (r : Nat)
    (hport : s.d_port = some r) (hname : (s.ports r).deviceName ≠ "")
    (hopen : (s.ports r).isOpen = true) :
    connectToReader env s = (.returned true, s)
    ∧ connectToReader env (connectToReader env s).2 = (.returned true, s) := by
  have h : connectToReader env s = (.returned true, s) := by
    simp only [connectToReader, startAutoDetect_named env s r hport hname, hport, hname,
      if_false, hopen, Bool.not_true, Bool.false_eq_true]
  rw [h]
  exact ⟨rfl, h⟩

theorem connectToReader_open_noop_witness :
    connectToReader (envOfWire silentWire) openReader = (.returned true, openReader)
    ∧ connectToReader (envOfWire silentWire)
        (connectToReader (envOfWire silentWire) openReader).2 = (.returned true, openReader) :=
  connectToReader_open_noop (envOfWire silentWire) openReader 0 rfl (by decide) rfl

/-! ### The auto-detector acts on the enumerated candidates only -/

theorem Touches.refl (i : Nat) (s : Reader) : Touches i s s :=
  ⟨fun _ _ => rfl, rfl, rfl, [], by simp, by simp⟩

theorem Touches.trans {i : Nat} {s t u : Reader} (h1 : Touches i s t) (h2 : Touches i t u) :
    Touches i s u := by
  obtain ⟨p1, n1, a1, ops1, e1, o1⟩ := h1
  obtain ⟨p2, n2, a2, ops2, e2, o2⟩ := h2
  refine ⟨fun k hk => (p2 k hk).trans (p1 k hk), n2.trans n1, a2.trans a1, ops1 ++ ops2, ?_, ?_⟩
  · rw [e2, e1, List.append_assoc]
  · intro op hop
    rcases List.mem_append.mp hop with h | h
    · exact o1 op h
    · exact o2 op h

theorem portOpen_touches (env : Env) (i : Nat) (s : Reader) :
    Touches i s (portOpen env i s).2 ∧ (portOpen env i s).2.d_port = s.d_port := by
  unfold portOpen
  cases env.openPort (s.ports i).deviceName with
  | some e =>
    exact ⟨⟨fun _ _ => rfl, rfl, rfl, [.opened i], rfl, by simp [PortOp.port]⟩, rfl⟩
  | none =>
    refine ⟨⟨fun k hk => ?_, ?_, rfl, [.opened i], rfl, by simp [PortOp.port]⟩, rfl⟩
    · simp [setPort, hk]
    · simp [setPort]

theorem applySettings_touches (env : Env) (i : Nat) (s : Reader) :
    Touches i s (applySettings env i s).2 ∧ (applySettings env i s).2.d_port = s.d_port := by
  unfold applySettings
  cases env.setConfiguration s.settingsCalls (s.ports i).deviceName with
  | some e =>
    exact ⟨⟨fun _ _ => rfl, rfl, rfl, [.settingsApplied i], rfl, by simp [PortOp.port]⟩, rfl⟩
  | none =>
    refine ⟨⟨fun k hk => ?_, ?_, rfl, [.settingsApplied i], rfl, by simp [PortOp.port]⟩, rfl⟩
    · simp [setPort, hk]
    · simp [setPort]

theorem closeIfOpen_touches (i : Nat) (s : Reader) :
    Touches i s (closeIfOpen i s) ∧ (closeIfOpen i s).d_port = s.d_port := by
  unfold closeIfOpen
  by_cases h : (s.ports i).isOpen = true
  · simp only [h, if_true, portClose]
    refine ⟨⟨fun k hk => ?_, ?_, rfl, [.closed i], rfl, by simp [PortOp.port]⟩, rfl⟩
    · simp [setPort, hk]
    · simp [setPort]
  · simp only [h, if_false]
    exact ⟨Touches.refl i s, rfl⟩

/-- The call `configure(port, false)` spelled out: the handler of line 514 swallows a `std::exception`
and nothing is retried. -/
theorem configure_false_eq (env : Env) (i : Nat) (s : Reader) :
    configure env (some i) false s
      = if (s.ports i).deviceName = "" then (.thrown .libLogicalAccess, s)
        else
          match applySettings env i s with
          | (.returned (), s1) => (.returned (), s1)
          | (.thrown e, s1) => if e.isStd then (.returned (), s1) else (.thrown e, s1) := by
  simp only [configure, configureBody, Bool.false_eq_true, if_false]

/-- The call `configure(port, false)` either raises or returns; it acts on `port` only, and it does
not return for a port without a device name. -/
theorem configure_false_touches (env : Env) (i : Nat) (s : Reader) :
    Touches i s (configure env (some i) false s).2
    ∧ (configure env (some i) false s).2.d_port = s.d_port
    ∧ ((configure env (some i) false s).1 = .returned () → (s.ports i).deviceName ≠ "") := by
  rw [configure_false_eq]
  by_cases hname : (s.ports i).deviceName = ""
  · rw [if_pos hname]
    exact ⟨Touches.refl i s, rfl, by simp⟩
  · rw [if_neg hname]
    have ha := applySettings_touches env i s
    rcases hr : applySettings env i s with ⟨o, s1⟩
    rw [hr] at ha
    cases o with
    | returned u => exact ⟨ha.1, ha.2, fun _ => hname⟩
    | thrown e =>
      simp only
      split
      · exact ⟨ha.1, ha.2, fun _ => hname⟩
      · exact ⟨ha.1, ha.2, fun _ => hname⟩

/-- One pass of the detection loop acts on its candidate only; it commits to the candidate
only when the candidate has a device name, and otherwise leaves the endpoint as it was. -/
theorem detectCandidate_touches (env : Env) (i : Nat) (s : Reader) :
    Touches i s (detectCandidate env i s).2
    ∧ ((detectCandidate env i s).1 = true →
        (detectCandidate env i s).2.d_port = some i ∧ (s.ports i).deviceName ≠ "")
    ∧ ((detectCandidate env i s).1 = false → (detectCandidate env i s).2.d_port = s.d_port) := by
  unfold detectCandidate
  have ho := portOpen_touches env i s
  rcases hr : portOpen env i s with ⟨o1, s1⟩
  rw [hr] at ho
  cases o1 with
  | thrown e =>
    simp only
    have hc := closeIfOpen_touches i s1
    exact ⟨ho.1.trans hc.1, by simp, fun _ => hc.2.trans ho.2⟩
  | returned u =>
    simp only
    have hcf := configure_false_touches env i s1
    rcases hr2 : configure env (some i) false s1 with ⟨o2, s2⟩
    rw [hr2] at hcf
    cases o2 with
    | thrown e =>
      simp only
      have hc := closeIfOpen_touches i s2
      exact ⟨(ho.1.trans hcf.1).trans hc.1, by simp, fun _ => hc.2.trans (hcf.2.1.trans ho.2)⟩
    | returned u =>
      simp only
      have hname : (s.ports i).deviceName ≠ "" := by
        have := hcf.2.2 rfl
        rw [ho.1.2.1] at this
        exact this
      have hp : Touches i s2 { s2 with portOps := s2.portOps ++ [.probed i] } :=
        ⟨fun _ _ => rfl, rfl, rfl, [.probed i], rfl, by simp [PortOp.port]⟩
      cases env.detectCommand (s2.ports i).deviceName with
      | raises e =>
        simp only
        have hc := closeIfOpen_touches i { s2 with portOps := s2.portOps ++ [.probed i] }
        exact ⟨((ho.1.trans hcf.1).trans hp).trans hc.1, by simp,
          fun _ => hc.2.trans (hcf.2.1.trans ho.2)⟩
      | reply bytes =>
        simp only
        have hc := closeIfOpen_touches i
          { s2 with portOps := s2.portOps ++ [.probed i], d_port := some i }
        refine ⟨((ho.1.trans hcf.1).trans ?_).trans hc.1, fun _ => ⟨hc.2, hname⟩, by simp⟩
        exact ⟨fun _ _ => rfl, rfl, rfl, [.probed i], rfl, by simp [PortOp.port]⟩

theorem detectLoop_frame (env : Env) :
    ∀ (refs : List Nat) (s : Reader),
      (∀ k, k ∉ refs → (detectLoop env refs s).2.ports k = s.ports k)
      ∧ (∃ added, (detectLoop env refs s).2.portOps = s.portOps ++ added
          ∧ ∀ op ∈ added, ∃ i ∈ refs, op.port = some i)
      ∧ ((detectLoop env refs s).1 = true →
          ∃ i ∈ refs, (detectLoop env refs s).2.d_port = some i
            ∧ ((detectLoop env refs s).2.ports i).deviceName ≠ "")
      ∧ ((detectLoop env refs s).1 = false → (detectLoop env refs s).2.d_port = s.d_port) := by
  intro refs
  induction refs with
  | nil =>
    intro s
    exact ⟨fun _ _ => rfl, ⟨[], by simp [detectLoop], by simp⟩, by simp [detectLoop],
      fun _ => rfl⟩
  | cons i rest ih =>
    intro s
    obtain ⟨⟨hp, hn, _, added, hadd, hops⟩, hfound, hnot⟩ := detectCandidate_touches env i s
    rcases hc : detectCandidate env i s with ⟨found, s1⟩
    rw [hc] at hp hn hadd hfound hnot
    cases found with
    | true =>
      simp only [detectLoop, hc]
      refine ⟨fun k hk => hp k (fun h => hk (h ▸ List.mem_cons_self _ _)),
        ⟨added, hadd, fun op hop => ⟨i, List.mem_cons_self _ _, hops op hop⟩⟩,
        fun _ => ⟨i, List.mem_cons_self _ _, (hfound rfl).1, ?_⟩, by simp⟩
      rw [hn]
      exact (hfound rfl).2
    | false =>
      simp only [detectLoop, hc]
      obtain ⟨hp2, ⟨added2, hadd2, hops2⟩, hfound2, hnot2⟩ := ih s1
      refine ⟨fun k hk => ?_, ⟨added ++ added2, ?_, ?_⟩, fun h => ?_, fun h => ?_⟩
      · rw [hp2 k (fun h => hk (List.mem_cons_of_mem _ h))]
        exact hp k (fun h => hk (h ▸ List.mem_cons_self _ _))
      · rw [hadd2, hadd, List.append_assoc]
      · intro op hop
        rcases List.mem_append.mp hop with h | h
        · exact ⟨i, List.mem_cons_self _ _, hops op h⟩
        · obtain ⟨j, hj, hjp⟩ := hops2 op h
          exact ⟨j, List.mem_cons_of_mem _ hj, hjp⟩
      · obtain ⟨j, hj, hjd, hjn⟩ := hfound2 h
        exact ⟨j, List.mem_cons_of_mem _ hj, hjd, hjn⟩
      · rw [hnot2 h]
        exact hnot rfl

theorem allocPorts_frame :
    ∀ (names : List String) (s : Reader),
      (∀ i ∈ (allocPorts names s).1, s.nextPort ≤ i)
      ∧ (∀ k, k < s.nextPort → (allocPorts names s).2.ports k = s.ports k)
      ∧ (allocPorts names s).2.d_port = s.d_port
      ∧ (allocPorts names s).2.portOps = s.portOps := by
  intro names
  induction names with
  | nil => intro s; exact ⟨by simp [allocPorts], fun _ _ => rfl, rfl, rfl⟩
  | cons name rest ih =>
    intro s
    obtain ⟨h1, h2, h3, h4⟩ := ih
      { setPort s s.nextPort { deviceName := name, isOpen := false, lineConfigured := false }
        with nextPort := s.nextPort + 1 }
    simp only [allocPorts]
    refine ⟨fun i hi => ?_, fun k hk => ?_, h3, h4⟩
    · rcases List.mem_cons.mp hi with h | h
      · omega
      · have := h1 i h
        simp only at this
        omega
    · rw [h2 k (by simp only; omega)]
      have hne : k ≠ s.nextPort := by omega
      simp [setPort, hne]

/-- The function `startAutoDetect` either does nothing or runs the detection loop over freshly enumerated
port objects. -/
theorem startAutoDetect_cases (env : Env) (s : Reader) :
    startAutoDetect env s = s
    ∨ startAutoDetect env s
        = (if (detectLoop env (allocPorts env.enumerate.2 s).1
                (allocPorts env.enumerate.2 s).2).1
           then { (detectLoop env (allocPorts env.enumerate.2 s).1
                    (allocPorts env.enumerate.2 s).2).2 with d_isAutoDetected := true }
           else (detectLoop env (allocPorts env.enumerate.2 s).1
                    (allocPorts env.enumerate.2 s).2).2) := by
  unfold startAutoDetect
  cases s.d_port with
  | none => exact Or.inl rfl
  | some r0 =>
    simp only
    split
    · split
      · exact Or.inl rfl
      · split
        · exact Or.inr rfl
        · exact Or.inl rfl
    · exact Or.inl rfl

/-- C10. If, after `startAutoDetect` has run (or done nothing), the endpoint of the reader
still has an empty device name, `connectToReader` raises instead of returning and does
nothing after the detection; the endpoint is the port object it was before the call, in the
state it was in, and no entry the call adds to the port record is about it. -/
theorem connectToReader_unnamed_raises (env : Env) (s : Reader) (r : Nat)
    (hvalid : ∀ r0, s.d_port = some r0 → r0 < s.nextPort)
    (hport : (startAutoDetect env s).d_port = some r)
    (hname : ((startAutoDetect env s).ports r).deviceName = "") :
    connectToReader env s = (.thrown .libLogicalAccess, startAutoDetect env s)
    ∧ s.d_port = some r
    ∧ (connectToReader env s).2.ports r = s.ports r
    ∧ ∃ added, (connectToReader env s).2.portOps = s.portOps ++ added
        ∧ ∀ op ∈ added, op.port ≠ some r := by
  have hc : connectToReader env s = (.thrown .libLogicalAccess, startAutoDetect env s) := by
    simp only [connectToReader, hport, hname, if_true]
  rw [hc]
  refine ⟨rfl, ?_⟩
  rcases startAutoDetect_cases env s with h | h
  · rw [h] at hport ⊢
    exact ⟨hport, rfl, [], by simp, by simp⟩
  · obtain ⟨ha1, ha2, ha3, ha4⟩ := allocPorts_frame env.enumerate.2 s
    obtain ⟨hl1, ⟨added, hl2, hl3⟩, hl4, hl5⟩ :=
      detectLoop_frame env (allocPorts env.enumerate.2 s).1 (allocPorts env.enumerate.2 s).2
    rw [h] at hport hname ⊢
    cases hfound : (detectLoop env (allocPorts env.enumerate.2 s).1
        (allocPorts env.enumerate.2 s).2).1 with
    | true =>
      exfalso
      simp only [hfound, if_true] at hport hname
      obtain ⟨j, _, hjd, hjn⟩ := hl4 hfound
      rw [hjd] at hport
      simp only [Option.some.injEq] at hport
      subst hport
      exact hjn hname
    | false =>
      simp only [hfound, Bool.false_eq_true, if_false] at hport hname ⊢
      have hd : s.d_port = some r := by
        rw [hl5 hfound, ha3] at hport
        exact hport
      have hlt : r < s.nextPort := hvalid r hd
      have hnotin : r ∉ (allocPorts env.enumerate.2 s).1 := fun h => by
        have := ha1 r h
        omega
      refine ⟨hd, ?_, added, ?_, ?_⟩
      · rw [hl1 r hnotin, ha2 r hlt]
      · rw [hl2, ha4]
      · intro op hop h
        obtain ⟨j, hj, hjp⟩ := hl3 op hop
        rw [hjp] at h
        simp only [Option.some.injEq] at h
        subst h
        exact hnotin hj

theorem connectToReader_unnamed_raises_witness :
    (connectToReader (envOfWire silentWire) unnamedReader).1 = .thrown .libLogicalAccess
    ∧ unnamedReader.d_port = some 0
    ∧ (connectToReader (envOfWire silentWire) unnamedReader).2.ports 0 = unnamedReader.ports 0
    ∧ (connectToReader (envOfWire silentWire) unnamedReader).2.portOps
        = [.opened 1, .settingsApplied 1, .probed 1, .closed 1,
           .opened 2, .settingsApplied 2, .probed 2, .closed 2,
           .opened 3, .settingsApplied 3, .probed 3, .closed 3] :=
  have h := connectToReader_unnamed_raises (envOfWire silentWire) unnamedReader 0
    (by intro r0 h0; cases h0; decide) (by decide) (by decide)
  ⟨by rw [h.1], h.2.1, h.2.2.1, by decide⟩

/-! ### Removal wait without a chip -/

theorem waitRemoval_no_chip_state (env : Env) (maxwait fuel : Nat) (s : Reader)
    (hchip : s.d_insertedChip = none) :
    waitRemoval env maxwait fuel s = some (.returned false, { s with removalIdentifier := [] }) := by
  rw [waitRemoval_no_chip env maxwait fuel s hchip]
  unfold removalEntry suppressLog setLogEnabled
  split <;> rfl

/-- C11. With no chip present `waitRemoval(maxwait)` returns false at once, for every
`maxwait`, zero included, and without running a poll cycle (any bound on the cycles, zero
included, gives the result): no probe is sent, no tick is slept, no chip is present after, and
nothing changes in the reader except that the pending removal identifier is cleared. -/
theorem waitRemoval_without_chip (env : Env) (maxwait fuel : Nat) (s : Reader)
    (hchip : s.d_insertedChip = none) :
    waitRemoval env maxwait fuel s = some (.returned false, { s with removalIdentifier := [] })
    ∧ ({ s with removalIdentifier := [] } : Reader).probesSent = s.probesSent
    ∧ ({ s with removalIdentifier := [] } : Reader).ticks = s.ticks
    ∧ ({ s with removalIdentifier := [] } : Reader).d_insertedChip = none
    ∧ isConnected { s with removalIdentifier := [] } = false :=
  ⟨waitRemoval_no_chip_state env maxwait fuel s hchip, rfl, rfl, hchip,
    by simp [isConnected, hchip]⟩

theorem waitRemoval_without_chip_witness :
    idleReader.d_insertedChip = none
    ∧ waitRemoval (envOfWire wire123) 0 0 idleReader
        = some (.returned false, { idleReader with removalIdentifier := [] })
    ∧ waitRemoval (envOfWire wire123) 500 7 idleReader
        = some (.returned false, { idleReader with removalIdentifier := [] }) :=
  ⟨rfl, (waitRemoval_without_chip (envOfWire wire123) 0 0 idleReader rfl).1,
    (waitRemoval_without_chip (envOfWire wire123) 500 7 idleReader rfl).1⟩

/-! ### Normalizer: empty and non-numeric input -/

theorem not_isDigit_ofNat (b : Nat) (h : ¬ (48 ≤ b ∧ b ≤ 57)) :
    (Char.ofNat b).isDigit = false := by
  unfold Char.ofNat
  split
  · simp only [Char.isDigit, Char.ofNatAux]
    simp only [ge_iff_le, UInt32.le_def, BitVec.le_def, Bool.and_eq_false_imp, decide_eq_true_eq,
      decide_eq_false_iff_not, BitVec.toNat_ofNatLt]
    have h48 : (UInt32.toBitVec 48).toNat = 48 := rfl
    have h57 : (UInt32.toBitVec 57).toNat = 57 := rfl
    rw [h48, h57]
    omega
  · decide

theorem atoull_non_numeric (raw : ByteVector) (hbad : ∃ b ∈ raw, ¬ (48 ≤ b ∧ b ≤ 57)) :
    atoull (getStdString raw) = 0 := by
  obtain ⟨b, hb, hnd⟩ := hbad
  unfold atoull getStdString
  have hl : (String.mk (raw.map Char.ofNat)).toList = raw.map Char.ofNat := rfl
  have hall : (raw.map Char.ofNat).all Char.isDigit = false := by
    rw [List.all_eq_false]
    exact ⟨Char.ofNat b, List.mem_map.mpr ⟨b, hb, rfl⟩, by simp [not_isDigit_ofNat b hnd]⟩
  rw [hl, hall]
  rfl

theorem processCardId_eq_renderedHex (f : String → ByteVector) (raw : ByteVector)
    (hne : raw ≠ []) : processCardId f raw = f (renderedHex raw) := by
  have hlen : raw.length > 0 := List.length_pos.mpr hne
  simp only [processCardId, hlen, if_true, renderedHex]

/-- C13. For every non-empty input that is not a string of ASCII decimal digits,
`processCardId` returns the all-zero identifier, `formatHexString` of twelve zero digits,
which is what it returns for the input "0". -/
theorem processCardId_non_numeric (f : String → ByteVector) (raw : ByteVector)
    (hne : raw ≠ []) (hbad : ∃ b ∈ raw, ¬ (48 ≤ b ∧ b ≤ 57)) :
    processCardId f raw = f "000000000000" ∧ processCardId f raw = processCardId f [48] := by
  have h0 : processCardId f [48] = f "000000000000" := by
    rw [processCardId_eq_renderedHex f [48] (by simp)]
    exact congrArg f (by decide)
  have h1 : processCardId f raw = f "000000000000" := by
    rw [processCardId_eq_renderedHex f raw hne, renderedHex, atoull_non_numeric raw hbad]
    exact congrArg f (by decide)
  exact ⟨h1, h1.trans h0.symm⟩

theorem processCardId_non_numeric_witness :
    processCardId hexPairsToBytes [49, 50, 97] = hexPairsToBytes "000000000000"
    ∧ processCardId hexPairsToBytes [49, 50, 97] = processCardId hexPairsToBytes [48]
    ∧ hexPairsToBytes "000000000000" = [0, 0, 0, 0, 0, 0] :=
  have h := processCardId_non_numeric hexPairsToBytes [49, 50, 97] (by decide)
    ⟨97, by decide, by decide⟩
  ⟨h.1, h.2, by decide⟩

/-- C18. Applied to an empty byte sequence `processCardId` returns an empty identifier,
whatever `formatHexString` does. -/
theorem processCardId_empty (f : String → ByteVector) : processCardId f [] = [] := by
  simp only [processCardId, List.length_nil, gt_iff_lt, Nat.lt_irrefl, if_false]

/-! ### Auto-detector: when it does nothing -/

/-- C16. If the configured device name is not empty, or auto-detection is disabled in the
settings, `startAutoDetect` returns with the whole state as it was: no port object is
enumerated, no port is opened (the port record is unchanged), and the endpoint and the
auto-detected flag are the same. -/
theorem startAutoDetect_noop (env : Env) (s : Reader)
    (h : (∃ r, s.d_port = some r ∧ (s.ports r).deviceName ≠ "")
      ∨ s.settings.IsAutoDetectEnabled = false) :
    startAutoDetect env s = s
    ∧ (startAutoDetect env s).nextPort = s.nextPort
    ∧ (startAutoDetect env s).portOps = s.portOps
    ∧ (startAutoDetect env s).d_port = s.d_port
    ∧ (startAutoDetect env s).d_isAutoDetected = s.d_isAutoDetected := by
  have hs : startAutoDetect env s = s := by
    rcases h with ⟨r, hport, hname⟩ | hoff
    · exact startAutoDetect_named env s r hport hname
    · unfold startAutoDetect
      cases s.d_port with
      | none => rfl
      | some r =>
        simp only [hoff, Bool.not_false, if_true]
        split <;> rfl
  rw [hs]
  exact ⟨rfl, rfl, rfl, rfl, rfl⟩

theorem startAutoDetect_noop_witness :
    startAutoDetect secondAnswersEnv openReader = openReader
    ∧ startAutoDetect secondAnswersEnv undetectingReader = undetectingReader
    ∧ (startAutoDetect secondAnswersEnv unnamedReader).d_port = some 2 :=
  ⟨(startAutoDetect_noop secondAnswersEnv openReader (Or.inl ⟨0, rfl, by decide⟩)).1,
   (startAutoDetect_noop secondAnswersEnv undetectingReader (Or.inr rfl)).1,
   by decide⟩

/-! ### Insertion wait without a deadline -/

theorem insertionTry_quiet_at (env : Env) (s : Reader) (hpend : s.removalIdentifier = [])
    (hq : env.sendCommand s.probesSent = .reply []
      ∨ ∃ e, env.sendCommand s.probesSent = .raises e ∧ e.isStd = true) :
    ∃ t, insertionTry env [] s = (t, [], false, { s with probesSent := s.probesSent + 1 })
      ∧ ∀ e, t ≠ .escaped e := by
  rcases hq with h | ⟨e, h, he⟩
  · exact ⟨.completed, by simp [insertionTry, hpend, h, insertionCreate], completed_ne_escaped⟩
  · exact ⟨TryEnd.ofExc e, by simp [insertionTry, hpend, h], ofExc_ne_escaped_of_isStd e he⟩

theorem insertionTry_reads (env : Env) (id : ByteVector) (s : Reader) (buf : ByteVector)
    (hpend : s.removalIdentifier = [])
    (hprobe : env.sendCommand s.probesSent = .reply buf)
    (hne : processCardId env.formatHexString buf ≠ [])
    (hcreate : env.createChip (chipType s) (processCardId env.formatHexString buf) = .created) :
    insertionTry env id s = (.completed, processCardId env.formatHexString buf, true,
      { s with probesSent := s.probesSent + 1,
               createCalls := s.createCalls
                 ++ [(chipType s, processCardId env.formatHexString buf)],
               d_insertedChip := some (createdChip (chipType s)
                 (processCardId env.formatHexString buf)) }) := by
  have hlen : buf.length > 0 := length_pos_of_processCardId_ne_nil _ _ hne
  have hp : ¬ s.removalIdentifier.length > 0 := by simp [hpend]
  have hc := insertionCreate_created env (processCardId env.formatHexString buf)
    { s with probesSent := s.probesSent + 1 } hne hcreate
  simp only [insertionTry, hp, if_false, hprobe, hlen, if_true]
  rw [hc]
  rfl

/-- With `maxwait = 0` the loop of `waitInsertion` goes through `k` silent cycles, whatever
the elapsed-time counter is, and leaves in the cycle that reads an identifier. -/
theorem insertionLoop_zero_reads (env : Env) (buf : ByteVector) :
    ∀ (k fuel cw : Nat) (s : Reader), k < fuel → s.removalIdentifier = [] →
      (∀ n, n < k → env.sendCommand (s.probesSent + n) = .reply []
        ∨ ∃ e, env.sendCommand (s.probesSent + n) = .raises e ∧ e.isStd = true) →
      env.sendCommand (s.probesSent + k) = .reply buf →
      processCardId env.formatHexString buf ≠ [] →
      env.createChip (chipType s) (processCardId env.formatHexString buf) = .created →
      insertionLoop env 0 fuel [] cw s
        = some (.returned true,
            { s with probesSent := s.probesSent + k + 1, ticks := s.ticks + k,
                     createCalls := s.createCalls
                       ++ [(chipType s, processCardId env.formatHexString buf)],
                     d_insertedChip := some (createdChip (chipType s)
                       (processCardId env.formatHexString buf)) }) := by
  intro k
  induction k with
  | zero =>
    intro fuel cw s hfuel hpend _ hprobe hne hcreate
    obtain ⟨fuel, rfl⟩ : ∃ f, fuel = f + 1 := ⟨fuel - 1, by omega⟩
    have ht := insertionTry_reads env [] s buf hpend (by simpa using hprobe) hne hcreate
    rw [insertionLoop_inserted env 0 fuel cw [] _ s _ _ ht completed_ne_escaped]
    rfl
  | succ k ih =>
    intro fuel cw s hfuel hpend hquiet hprobe hne hcreate
    obtain ⟨fuel, rfl⟩ : ∃ f, fuel = f + 1 := ⟨fuel - 1, by omega⟩
    obtain ⟨t, ht, hnt⟩ := insertionTry_quiet_at env s hpend (by simpa using hquiet 0 (by omega))
    rw [insertionLoop_continue env 0 fuel cw [] [] s _ t ht hnt (Or.inl rfl)]
    refine (ih fuel _ _ (by omega) (by exact hpend) ?_ ?_ hne (by exact hcreate)).trans ?_
    · intro n hn
      have := hquiet (n + 1) (by omega)
      have hidx : s.probesSent + 1 + n = s.probesSent + (n + 1) := by omega
      simpa only [hidx] using this
    · have hidx : s.probesSent + 1 + k = s.probesSent + (k + 1) := by omega
      simpa only [hidx] using hprobe
    · simp only [Option.some.injEq, Prod.mk.injEq, true_and, Reader.mk.injEq, and_true]
      repeat' constructor
      all_goals omega

theorem insertionLoop_zero_not_false (env : Env) :
    ∀ (fuel : Nat) (id : ByteVector) (cw : Nat) (s s1 : Reader),
      insertionLoop env 0 fuel id cw s ≠ some (.returned false, s1) := by
  intro fuel
  induction fuel with
  | zero => intro id cw s s1 h; simp [insertionLoop] at h
  | succ fuel ih =>
    intro id cw s s1 h
    rcases ht : insertionTry env id s with ⟨t, id1, b, s2⟩
    cases t with
    | escaped e =>
      rw [insertionLoop_escaped env 0 fuel cw id id1 s s2 e b ht] at h
      simp at h
    | completed =>
      cases b with
      | true =>
        rw [insertionLoop_inserted env 0 fuel cw id id1 s s2 _ ht completed_ne_escaped] at h
        simp at h
      | false =>
        rw [insertionLoop_continue env 0 fuel cw id id1 s s2 _ ht completed_ne_escaped
          (Or.inl rfl)] at h
        exact ih _ _ _ _ h
    | swallowed =>
      cases b with
      | true =>
        rw [insertionLoop_inserted env 0 fuel cw id id1 s s2 _ ht swallowed_ne_escaped] at h
        simp at h
      | false =>
        rw [insertionLoop_continue env 0 fuel cw id id1 s s2 _ ht swallowed_ne_escaped
          (Or.inl rfl)] at h
        exact ih _ _ _ _ h

/-- C12. `waitInsertion(0)` never times out. From a state with no pending removal identifier,
for every `k`, also one for which the 32-bit elapsed-time counter wraps: if the first `k`
probes yield no identifier and probe `k + 1` yields a non-empty identifier that the chip
factory accepts, the call returns true after exactly `k` poll ticks and `k + 1` probes; and
for no collaborators and no state does `waitInsertion(0)` return false. -/
theorem waitInsertion_zero_never_times_out (env : Env) (s : Reader) (k fuel : Nat)
    (buf Y : ByteVector)
    (hpend : s.removalIdentifier = [])
    (hquiet : ∀ n, n < k → env.sendCommand (s.probesSent + n) = .reply []
      ∨ ∃ e, env.sendCommand (s.probesSent + n) = .raises e ∧ e.isStd = true)
    (hprobe : env.sendCommand (s.probesSent + k) = .reply buf)
    (hY : processCardId env.formatHexString buf = Y) (hne : Y ≠ [])
    (hcreate : env.createChip (chipType s) Y = .created)
    (hfuel : k < fuel) :
    (∃ s1, waitInsertion env 0 fuel s = some (.returned true, s1)
      ∧ s1.ticks = s.ticks + k ∧ s1.probesSent = s.probesSent + k + 1
      ∧ s1.d_insertedChip = some (createdChip (chipType s) Y))
    ∧ ∀ (env2 : Env) (fuel2 : Nat) (s2 s3 : Reader),
        waitInsertion env2 0 fuel2 s2 ≠ some (.returned false, s3) := by
  subst hY
  constructor
  · have hl := insertionLoop_zero_reads env buf k fuel 0
      (suppressLog s.settings.SeeWaitInsertionLog s) hfuel (by simpa using hpend)
      (by simpa using hquiet) (by simpa using hprobe) hne (by simpa using hcreate)
    rw [waitInsertion_eq, hl]
    refine ⟨_, rfl, ?_, ?_, ?_⟩ <;> simp [insertionExit, setLogEnabled]
  · intro env2 fuel2 s2 s3 h
    rw [waitInsertion_eq] at h
    cases hl : insertionLoop env2 0 fuel2 [] 0
        (suppressLog s2.settings.SeeWaitInsertionLog s2) with
    | none => simp [hl] at h
    | some r =>
      obtain ⟨o, s4⟩ := r
      rw [hl] at h
      cases o with
      | thrown e => simp [insertionExit] at h
      | returned b =>
        cases b with
        | true => simp [insertionExit] at h
        | false => exact insertionLoop_zero_not_false env2 fuel2 [] 0 _ s4 hl

theorem waitInsertion_zero_never_times_out_witness :
    2 ^ 32 ≤ 500 * 8589935
    ∧ ∃ s1, waitInsertion (envOfWire (lateWire 8589935)) 0 8589936 idleReader
        = some (.returned true, s1)
      ∧ s1.ticks = idleReader.ticks + 8589935
      ∧ s1.probesSent = idleReader.probesSent + 8589935 + 1
      ∧ s1.d_insertedChip
        = some (createdChip (chipType idleReader) [0, 0, 0, 0, 0, 123]) :=
  ⟨by decide,
   (waitInsertion_zero_never_times_out (envOfWire (lateWire 8589935)) idleReader 8589935
      8589936 [49, 50, 51] [0, 0, 0, 0, 0, 123] rfl
      (by
        intro n hn
        left
        have h0 : idleReader.probesSent + n = n := Nat.zero_add n
        rw [h0]
        simp [envOfWire, lateWire, hn])
      (by decide) (by decide) (by decide) rfl (by decide)).1⟩

/-! ### Auto-detector: every candidate is closed again -/

theorem closeIfOpen_closed (i : Nat) (s : Reader) :
    ((closeIfOpen i s).ports i).isOpen = false := by
  unfold closeIfOpen
  by_cases h : (s.ports i).isOpen = true
  · simp [h, portClose, setPort]
  · simp [h]

theorem detectCandidate_closed (env : Env) (i : Nat) (s : Reader) :
    ((detectCandidate env i s).2.ports i).isOpen = false := by
  unfold detectCandidate
  rcases portOpen env i s with ⟨o1, s1⟩
  cases o1 with
  | thrown e => exact closeIfOpen_closed i s1
  | returned u =>
    simp only
    rcases configure env (some i) false s1 with ⟨o2, s2⟩
    cases o2 with
    | thrown e => exact closeIfOpen_closed i s2
    | returned u =>
      simp only
      cases env.detectCommand (s2.ports i).deviceName with
      | raises e => exact closeIfOpen_closed i _
      | reply bytes => exact closeIfOpen_closed i _

/-- A port that is closed before the detection loop is closed after it. -/
theorem detectLoop_closed (env : Env) :
    ∀ (refs : List Nat) (s : Reader) (j : Nat), (s.ports j).isOpen = false →
      ((detectLoop env refs s).2.ports j).isOpen = false := by
  intro refs
  induction refs with
  | nil => intro s j h; exact h
  | cons i rest ih =>
    intro s j h
    have hstep : ((detectCandidate env i s).2.ports j).isOpen = false := by
      by_cases hj : j = i
      · rw [hj]; exact detectCandidate_closed env i s
      · rw [(detectCandidate_touches env i s).1.1 j hj]; exact h
    rcases hc : detectCandidate env i s with ⟨found, s1⟩
    rw [hc] at hstep
    cases found with
    | true => simpa only [detectLoop, hc] using hstep
    | false =>
      simp only [detectLoop, hc]
      exact ih s1 j hstep

/-- The port objects created by the enumeration are closed. -/
theorem allocPorts_closed :
    ∀ (names : List String) (s : Reader) (i : Nat), i ∈ (allocPorts names s).1 →
      ((allocPorts names s).2.ports i).isOpen = false := by
  intro names
  induction names with
  | nil => intro s i hi; simp [allocPorts] at hi
  | cons name rest ih =>
    intro s i hi
    simp only [allocPorts] at hi ⊢
    rcases List.mem_cons.mp hi with h | h
    · obtain ⟨_, h2, _, _⟩ := allocPorts_frame rest
        { setPort s s.nextPort { deviceName := name, isOpen := false, lineConfigured := false }
          with nextPort := s.nextPort + 1 }
      rw [h, h2 s.nextPort (by simp only; omega)]
      simp [setPort]
    · exact ih _ i h

/-- C14. After `startAutoDetect` returns, every port it opened is closed again, and so is the
candidate it accepted as the new endpoint. With three candidates of which only the second
answers, the second becomes the endpoint and all three are closed, the third without ever
having been opened. -/
theorem startAutoDetect_closes_candidates (env : Env) (s : Reader) :
    (∃ added, (startAutoDetect env s).portOps = s.portOps ++ added
      ∧ ∀ i, PortOp.opened i ∈ added → ((startAutoDetect env s).ports i).isOpen = false)
    ∧ (∀ i, (startAutoDetect env s).d_port = some i → s.d_port ≠ some i →
        ((startAutoDetect env s).ports i).isOpen = false)
    ∧ (startAutoDetect secondAnswersEnv unnamedReader).d_port = some 2
    ∧ ((startAutoDetect secondAnswersEnv unnamedReader).ports 2).deviceName = "COM2"
    ∧ [1, 2, 3].map (fun i => ((startAutoDetect secondAnswersEnv unnamedReader).ports i).isOpen)
        = [false, false, false]
    ∧ (startAutoDetect secondAnswersEnv unnamedReader).portOps
        = [.opened 1, .settingsApplied 1, .probed 1, .closed 1,
           .opened 2, .settingsApplied 2, .probed 2, .closed 2] := by
  refine ⟨?_, ?_, by decide, by decide, by decide, by decide⟩
  · rcases startAutoDetect_cases env s with h | h
    · rw [h]
      exact ⟨[], by simp, by simp⟩
    · obtain ⟨_, _, _, ha4⟩ := allocPorts_frame env.enumerate.2 s
      obtain ⟨_, ⟨added, hl2, hl3⟩, _, _⟩ :=
        detectLoop_frame env (allocPorts env.enumerate.2 s).1 (allocPorts env.enumerate.2 s).2
      have hclosed : ∀ i, PortOp.opened i ∈ added →
          ((detectLoop env (allocPorts env.enumerate.2 s).1
            (allocPorts env.enumerate.2 s).2).2.ports i).isOpen = false := by
        intro i hi
        obtain ⟨j, hj, hjp⟩ := hl3 _ hi
        simp only [PortOp.port, Option.some.injEq] at hjp
        subst hjp
        exact detectLoop_closed env _ _ i (allocPorts_closed env.enumerate.2 s i hj)
      rw [h]
      split
      · exact ⟨added, by rw [← ha4]; exact hl2, hclosed⟩
      · exact ⟨added, by rw [← ha4]; exact hl2, hclosed⟩
  · intro i hi hne
    rcases startAutoDetect_cases env s with h | h
    · rw [h] at hi
      exact absurd hi hne
    · obtain ⟨_, _, ha3, _⟩ := allocPorts_frame env.enumerate.2 s
      obtain ⟨_, _, hl4, hl5⟩ :=
        detectLoop_frame env (allocPorts env.enumerate.2 s).1 (allocPorts env.enumerate.2 s).2
      rw [h] at hi ⊢
      cases hfound : (detectLoop env (allocPorts env.enumerate.2 s).1
          (allocPorts env.enumerate.2 s).2).1 with
      | true =>
        simp only [hfound, if_true] at hi ⊢
        obtain ⟨j, hj, hjd, _⟩ := hl4 hfound
        rw [hjd] at hi
        simp only [Option.some.injEq] at hi
        subst hi
        exact detectLoop_closed env _ _ j (allocPorts_closed env.enumerate.2 s j hj)
      | false =>
        simp only [hfound, Bool.false_eq_true, if_false] at hi
        rw [hl5 hfound, ha3] at hi
        exact absurd hi hne

theorem startAutoDetect_closes_candidates_witness :
    (startAutoDetect secondAnswersEnv unnamedReader).d_port = some 2
    ∧ unnamedReader.d_port ≠ some 2
    ∧ ((startAutoDetect secondAnswersEnv unnamedReader).ports 2).isOpen = false :=
  ⟨by decide, by decide,
   (startAutoDetect_closes_candidates secondAnswersEnv unnamedReader).2.1 2 (by decide)
     (by decide)⟩

/-! ### Normalizer: width of the rendered string -/

theorem toDigitsCore_length_acc (b f : Nat) :
    ∀ (ds : List Char) (n : Nat),
      (Nat.toDigitsCore b f n ds).length = (Nat.toDigitsCore b f n []).length + ds.length := by
  intro ds
  induction ds with
  | nil => intro n; rfl
  | cons c tl ih =>
    intro n
    rw [Nat.toDigitsCore_lens_eq b f n c tl, ih n, List.length_cons]
    omega

/-- A number of at least `16 ^ e` has more than `e` hexadecimal digits. -/
theorem toDigitsCore_length_lower :
    ∀ (e f n : Nat), 16 ^ e ≤ n → n < f → e < (Nat.toDigitsCore 16 f n []).length := by
  intro e
  induction e with
  | zero =>
    intro f n _ hf
    obtain ⟨f, rfl⟩ : ∃ g, f = g + 1 := ⟨f - 1, by omega⟩
    simp only [Nat.toDigitsCore]
    split
    · simp
    · rw [toDigitsCore_length_acc]
      simp
  | succ e ih =>
    intro f n hn hf
    obtain ⟨f, rfl⟩ : ∃ g, f = g + 1 := ⟨f - 1, by omega⟩
    have hpow : 16 ^ (e + 1) = 16 ^ e * 16 := by rw [pow_succ]
    have hdiv : 16 ^ e ≤ n / 16 := by
      rw [Nat.le_div_iff_mul_le (by decide)]
      omega
    have hpos : 0 < 16 ^ e := Nat.pow_pos (by decide)
    have hne : n / 16 ≠ 0 := by omega
    have hlt : n / 16 < f := by omega
    simp only [Nat.toDigitsCore, hne, if_false]
    rw [toDigitsCore_length_acc]
    have := ih f (n / 16) hdiv hlt
    simp only [List.length_singleton]
    omega

theorem sprintf_012llx_length (l : Nat) :
    (sprintf_012llx l).length = max 12 (Nat.toDigits 16 l).length := by
  simp only [sprintf_012llx, String.length, List.length_append, List.length_replicate]
  omega

theorem sprintf_012llx_width (l : Nat) (hl : l < 2 ^ 64) :
    12 ≤ (sprintf_012llx l).length ∧ (sprintf_012llx l).length ≤ 16
    ∧ ((sprintf_012llx l).length = 12 ↔ l < 2 ^ 48) := by
  rw [sprintf_012llx_length]
  have h16 : (Nat.toDigits 16 l).length ≤ 16 :=
    Nat.toDigitsCore_length 16 (by decide) (l + 1) l 16 (by norm_num at hl ⊢; exact hl)
      (by decide)
  refine ⟨by omega, by omega, ?_, ?_⟩
  · intro h
    by_contra hge
    have : 12 < (Nat.toDigits 16 l).length :=
      toDigitsCore_length_lower 12 (l + 1) l (by norm_num at hge ⊢; omega) (by omega)
    omega
  · intro h
    have : (Nat.toDigits 16 l).length ≤ 12 :=
      Nat.toDigitsCore_length 16 (by decide) (l + 1) l 12 (by norm_num at h ⊢; exact h)
        (by decide)
    omega

theorem atoull_lt (str : String) : atoull str < 2 ^ 64 := by
  unfold atoull
  split
  · exact Nat.mod_lt _ (by decide)
  · decide

/-- C17, the claim as stated fails: the input "281474976710656" (the value `2^48`) is rendered
with thirteen characters, the input "0" with twelve. -/
theorem renderedHex_thirteen_characters :
    renderedHex [50, 56, 49, 52, 55, 52, 57, 55, 54, 55, 49, 48, 54, 53, 54] = "1000000000000"
    ∧ (renderedHex [50, 56, 49, 52, 55, 52, 57, 55, 54, 55, 49, 48, 54, 53, 54]).length = 13
    ∧ (renderedHex [48]).length = 12 := by
  decide

/-- C17 as amended. For every non-empty input the hexadecimal string that `processCardId`
renders and hands to `formatHexString` has at least 12 and at most 16 characters; it has
exactly 12 characters if and only if the parsed value is below `2^48`, so any two non-empty
inputs whose values are below `2^48` yield strings of the same length. -/
theorem renderedHex_width (f : String → ByteVector) (raw raw2 : ByteVector) (hne : raw ≠ []) :
    processCardId f raw = f (renderedHex raw)
    ∧ 12 ≤ (renderedHex raw).length ∧ (renderedHex raw).length ≤ 16
    ∧ ((renderedHex raw).length = 12 ↔ atoull (getStdString raw) < 2 ^ 48)
    ∧ (atoull (getStdString raw) < 2 ^ 48 → atoull (getStdString raw2) < 2 ^ 48 →
        (renderedHex raw).length = (renderedHex raw2).length) := by
  have h := sprintf_012llx_width (atoull (getStdString raw)) (atoull_lt _)
  have h2 := sprintf_012llx_width (atoull (getStdString raw2)) (atoull_lt _)
  refine ⟨processCardId_eq_renderedHex f raw hne, h.1, h.2.1, h.2.2, fun h48 h48b => ?_⟩
  unfold renderedHex
  rw [h.2.2.mpr h48, h2.2.2.mpr h48b]

theorem renderedHex_width_witness :
    [50, 53, 53] ≠ ([] : ByteVector)
    ∧ processCardId hexPairsToBytes [50, 53, 53] = hexPairsToBytes (renderedHex [50, 53, 53])
    ∧ (renderedHex [50, 53, 53]).length = (renderedHex [49, 50, 97]).length :=
  have h := renderedHex_width hexPairsToBytes [50, 53, 53] [49, 50, 97] (by decide)
  ⟨by decide, h.1, h.2.2.2.2 (by decide) (by decide)⟩

/-! ### Timeout of `waitRemoval` while the same chip stays -/

theorem removalTry_same (env : Env) (chip : Chip) (s : Reader)
    (hq : ∃ buf, env.sendCommand s.probesSent = .reply buf
      ∧ (buf = [] ∨ processCardId env.formatHexString buf = chip.identifier)) :
    removalTry env chip s = (.completed, false, { s with probesSent := s.probesSent + 1 }) := by
  obtain ⟨buf, hprobe, hbuf⟩ := hq
  rcases hbuf with h | h
  · subst h
    simp only [removalTry, hprobe, List.length_nil, gt_iff_lt, Nat.lt_irrefl, if_false]
  · by_cases hlen : buf.length > 0
    · simp only [removalTry, hprobe, hlen, if_true, h, ne_eq, not_true_eq_false, and_false,
        if_false]
    · simp only [removalTry, hprobe, hlen, if_false]

/-- While every probe is empty or reads the identifier of the present chip, the loop of
`waitRemoval` leaves after `k` ticks when the counter, which does not wrap on the way, first
reaches `maxwait` then. -/
theorem removalLoop_same (env : Env) (maxwait : Nat) (chip : Chip)
    (hq : ∀ n, ∃ buf, env.sendCommand n = .reply buf
      ∧ (buf = [] ∨ processCardId env.formatHexString buf = chip.identifier)) :
    ∀ (k fuel cw : Nat) (s : Reader), 1 ≤ k → k ≤ fuel →
      cw + 500 * k < 2 ^ 32 → cw + 500 * (k - 1) < maxwait → maxwait ≤ cw + 500 * k →
      removalLoop env maxwait chip fuel cw s
        = some (.returned false,
            { s with probesSent := s.probesSent + k, ticks := s.ticks + k }) := by
  intro k
  induction k with
  | zero => intro fuel cw s h1; omega
  | succ k ih =>
    intro fuel cw s _ hfuel hwrap hlow hhigh
    obtain ⟨fuel, rfl⟩ : ∃ f, fuel = f + 1 := ⟨fuel - 1, by omega⟩
    have ht := removalTry_same env chip s (hq s.probesSent)
    have hmod : (cw + 500) % 2 ^ 32 = cw + 500 := Nat.mod_eq_of_lt (by omega)
    by_cases hk : k = 0
    · subst hk
      rw [removalLoop_timeout env maxwait chip fuel cw s _ _ ht completed_ne_escaped
        (by rw [hmod]; omega)]
    · have h500 : 500 * (k + 1 - 1) = 500 * (k - 1) + 500 := by omega
      rw [removalLoop_continue env maxwait chip fuel cw s _ _ ht completed_ne_escaped
        (by rw [hmod]; right; omega), hmod]
      refine (ih fuel (cw + 500) _ (by omega) (by omega) (by omega) (by omega)
        (by omega)).trans ?_
      simp only [Option.some.injEq, Prod.mk.injEq, true_and, Reader.mk.injEq, and_true]
      omega

/-- Timeout of `waitRemoval` when the counter cannot wrap: with a chip present, every probe
empty or reading the identifier of that chip, and `0 < maxwait ≤ 4294967000`, the call returns
false after exactly `ticksFor maxwait` ticks; the chip is still present and the pending removal
identifier is empty. -/
theorem waitRemoval_timeout_ticks (env : Env) (maxwait fuel : Nat) (s : Reader) (chip : Chip)
    (hchip : s.d_insertedChip = some chip)
    (hq : ∀ n, ∃ buf, env.sendCommand n = .reply buf
      ∧ (buf = [] ∨ processCardId env.formatHexString buf = chip.identifier))
    (hpos : 0 < maxwait) (hmax : maxwait ≤ 4294967000) (hfuel : ticksFor maxwait ≤ fuel) :
    ∃ s1, waitRemoval env maxwait fuel s = some (.returned false, s1)
      ∧ s1.ticks = s.ticks + ticksFor maxwait
      ∧ s1.probesSent = s.probesSent + ticksFor maxwait
      ∧ s1.d_insertedChip = some chip ∧ s1.removalIdentifier = [] := by
  have hl := removalLoop_same env maxwait chip hq (ticksFor maxwait) fuel 0 (removalEntry s)
    (by unfold ticksFor; omega) hfuel (by unfold ticksFor; omega) (by unfold ticksFor; omega)
    (by unfold ticksFor; omega)
  rw [waitRemoval_of_chip env maxwait fuel s chip hchip, hl]
  refine ⟨_, rfl, ?_, ?_, ?_, ?_⟩ <;> simp [setLogEnabled, hchip]

theorem waitRemoval_timeout_ticks_example :
    ∃ s1, waitRemoval (envOfWire silentWire) 1200 3 presentReader = some (.returned false, s1)
      ∧ s1.ticks = 3 ∧ s1.removalIdentifier = [] := by
  obtain ⟨s1, h, ht, _, _, hr⟩ := waitRemoval_timeout_ticks (envOfWire silentWire) 1200 3
    presentReader _ rfl (fun _ => ⟨[], rfl, Or.inl rfl⟩) (by decide) (by decide) (by decide)
  exact ⟨s1, h, ht, hr⟩

theorem removalLoop_uint_max (env : Env) (chip : Chip)
    (hq : ∀ n, ∃ buf, env.sendCommand n = .reply buf
      ∧ (buf = [] ∨ processCardId env.formatHexString buf = chip.identifier)) :
    ∀ (fuel cw : Nat) (s : Reader), cw % 4 = 0 →
      removalLoop env 4294967295 chip fuel cw s = none := by
  intro fuel
  induction fuel with
  | zero => intro cw s _; rfl
  | succ fuel ih =>
    intro cw s hcw
    have ht := removalTry_same env chip s (hq s.probesSent)
    rw [removalLoop_continue env 4294967295 chip fuel cw s _ _ ht completed_ne_escaped
      (by right; omega)]
    exact ih _ _ (by omega)

/-- C19 at `maxwait = 4294967295`, a chip present and an always-empty wire: `waitRemoval` does
not return after `ticksFor 4294967295 = 8589935` ticks, nor after any other number of poll
cycles. -/
theorem waitRemoval_uint_max_never_returns :
    ticksFor 4294967295 = 8589935
    ∧ presentReader.d_insertedChip
        = some { cardType := "GenericTag", identifier := [0, 0, 0, 0, 0, 1] }
    ∧ ∀ fuel, waitRemoval (envOfWire silentWire) 4294967295 fuel presentReader = none := by
  refine ⟨by decide, rfl, fun fuel => ?_⟩
  rw [waitRemoval_of_chip (envOfWire silentWire) 4294967295 fuel presentReader _ rfl,
    removalLoop_uint_max (envOfWire silentWire) _ (fun _ => ⟨[], rfl, Or.inl rfl⟩) fuel 0 _
      (by decide)]
  rfl

/-! ### Which identifier a chip-creation attempt uses -/

/-- C20 at a wire whose first probe reads "123" and whose second probe is empty, with a chip
factory that turns the identifier down with a `std::exception`: the second cycle, which starts
with no pending identifier and reads nothing, calls the chip factory again with the identifier
of the first cycle. -/
theorem waitInsertion_retries_stale_identifier :
    idleReader.removalIdentifier = []
    ∧ refusingEnv.sendCommand 0 = .reply [49, 50, 51]
    ∧ refusingEnv.sendCommand 1 = .reply []
    ∧ (waitInsertion refusingEnv 1000 2 idleReader).map
        (fun r => (r.1, r.2.probesSent, r.2.ticks, r.2.createCalls))
      = some (.returned false, 2, 2,
          [("GenericTag", [0, 0, 0, 0, 0, 123]), ("GenericTag", [0, 0, 0, 0, 0, 123])])
    ∧ (waitInsertion refusingEnv 500 1 idleReader).map (fun r => r.2.createCalls)
      = some [("GenericTag", [0, 0, 0, 0, 0, 123])] :=
  ⟨rfl, rfl, rfl, rfl, rfl⟩

/-! ### What a successful insertion wait leaves -/

theorem insertionCreate_true (env : Env) (id : ByteVector) (s s1 : Reader) (t : TryEnd)
    (h : insertionCreate env id s = (t, true, s1)) :
    id ≠ [] ∧ s1.d_insertedChip = some (createdChip (chipType s) id)
    ∧ s1.probesSent = s.probesSent := by
  unfold insertionCreate at h
  by_cases hlen : id.length > 0
  · simp only [hlen, if_true] at h
    cases hc : env.createChip (chipType s) id with
    | raises e => rw [hc] at h; simp at h
    | created =>
      rw [hc] at h
      simp only [Prod.mk.injEq, true_and] at h
      rw [← h.2]
      exact ⟨List.length_pos.mp hlen, rfl, rfl⟩
  · simp [hlen] at h

theorem insertionCreate_false (env : Env) (id : ByteVector) (s s1 : Reader) (t : TryEnd)
    (h : insertionCreate env id s = (t, false, s1)) :
    s1.removalIdentifier = s.removalIdentifier ∧ s1.d_card_type = s.d_card_type := by
  unfold insertionCreate at h
  by_cases hlen : id.length > 0
  · simp only [hlen, if_true] at h
    cases hc : env.createChip (chipType s) id with
    | created => rw [hc] at h; simp at h
    | raises e =>
      rw [hc] at h
      simp only [Prod.mk.injEq, true_and] at h
      rw [← h.2]
      exact ⟨rfl, rfl⟩
  · simp only [hlen, if_false, Prod.mk.injEq, true_and] at h
    rw [← h.2]
    exact ⟨rfl, rfl⟩

/-- A cycle of `waitInsertion` that sets `inserted` has created the chip from the pending
identifier, or else from the non-empty reply its own probe read. -/
theorem insertionTry_true (env : Env) (id id1 : ByteVector) (s s1 : Reader) (t : TryEnd)
    (h : insertionTry env id s = (t, id1, true, s1)) (hinv : StaleFails env id s) :
    id1 ≠ [] ∧ s1.d_insertedChip = some (createdChip (chipType s) id1)
    ∧ (s.removalIdentifier ≠ [] → id1 = s.removalIdentifier)
    ∧ (s.removalIdentifier = [] → ∃ buf, buf ≠ []
        ∧ env.sendCommand (s1.probesSent - 1) = .reply buf
        ∧ id1 = processCardId env.formatHexString buf) := by
  unfold insertionTry at h
  by_cases hpend : s.removalIdentifier.length > 0
  · simp only [hpend, if_true, Prod.mk.injEq] at h
    obtain ⟨_, hid, hb, hs⟩ := h
    have hc := insertionCreate_true env s.removalIdentifier s s1
      (insertionCreate env s.removalIdentifier s).1 (by rw [← hb, ← hs])
    subst hid
    refine ⟨hc.1, hc.2.1, fun _ => rfl, fun h0 => ?_⟩
    rw [h0] at hpend
    simp at hpend
  · simp only [hpend, if_false] at h
    have hnil : s.removalIdentifier = [] := by
      cases hr : s.removalIdentifier with
      | nil => rfl
      | cons a l => rw [hr] at hpend; simp at hpend
    cases hw : env.sendCommand s.probesSent with
    | raises e => rw [hw] at h; simp at h
    | reply tmp =>
      rw [hw] at h
      simp only [Prod.mk.injEq] at h
      obtain ⟨_, hid, hb, hs⟩ := h
      have hc := insertionCreate_true env _ { s with probesSent := s.probesSent + 1 } s1
        (insertionCreate env
          (if tmp.length > 0 then processCardId env.formatHexString tmp else id)
          { s with probesSent := s.probesSent + 1 }).1 (by rw [← hb, ← hs])
      by_cases hlen : tmp.length > 0
      · simp only [hlen, if_true] at hid hc
        subst hid
        refine ⟨hc.1, hc.2.1, fun hne => absurd hnil hne, fun _ => ⟨tmp, ?_, ?_, rfl⟩⟩
        · exact List.length_pos.mp hlen
        · rw [hc.2.2]
          simpa using hw
      · exfalso
        simp only [hlen, if_false] at hb
        rcases insertionCreate_stale env id { s with probesSent := s.probesSent + 1 } hinv
          with ⟨t2, calls, _, hst⟩
        rw [hst] at hb
        simp at hb

theorem insertionTry_false (env : Env) (id id1 : ByteVector) (s s1 : Reader) (t : TryEnd)
    (h : insertionTry env id s = (t, id1, false, s1)) (ht : ∀ e, t ≠ .escaped e)
    (hinv : StaleFails env id s) :
    s1.removalIdentifier = s.removalIdentifier ∧ s1.d_card_type = s.d_card_type
    ∧ StaleFails env id1 s1 := by
  unfold insertionTry at h
  by_cases hpend : s.removalIdentifier.length > 0
  · simp only [hpend, if_true, Prod.mk.injEq] at h
    obtain ⟨h1, hid, hb, hs⟩ := h
    have hcr : insertionCreate env s.removalIdentifier s = (t, false, s1) := by
      rw [← h1, ← hb, ← hs]
    have hf := insertionCreate_false env _ s s1 t hcr
    subst hid
    exact ⟨hf.1, hf.2, staleFails_of_insertionCreate env _ s s1 t hcr ht⟩
  · simp only [hpend, if_false] at h
    cases hw : env.sendCommand s.probesSent with
    | raises e =>
      rw [hw] at h
      simp only [Prod.mk.injEq] at h
      obtain ⟨_, hid, _, hs⟩ := h
      subst hid
      rw [← hs]
      exact ⟨rfl, rfl, hinv⟩
    | reply tmp =>
      rw [hw] at h
      simp only [Prod.mk.injEq] at h
      obtain ⟨h1, hid, hb, hs⟩ := h
      have hcr : insertionCreate env
          (if tmp.length > 0 then processCardId env.formatHexString tmp else id)
          { s with probesSent := s.probesSent + 1 } = (t, false, s1) := by
        rw [← h1, ← hb, ← hs]
      have hf := insertionCreate_false env _ _ s1 t hcr
      subst hid
      exact ⟨hf.1, hf.2, staleFails_of_insertionCreate env _ _ s1 t hcr ht⟩

theorem insertionLoop_true (env : Env) (maxwait : Nat) :
    ∀ (fuel : Nat) (id : ByteVector) (cw : Nat) (s s1 : Reader),
      insertionLoop env maxwait fuel id cw s = some (.returned true, s1) →
      StaleFails env id s →
      ∃ id1, id1 ≠ [] ∧ s1.d_insertedChip = some (createdChip (chipType s) id1)
        ∧ (s.removalIdentifier ≠ [] → id1 = s.removalIdentifier)
        ∧ (s.removalIdentifier = [] → ∃ buf, buf ≠ []
            ∧ env.sendCommand (s1.probesSent - 1) = .reply buf
            ∧ id1 = processCardId env.formatHexString buf) := by
  intro fuel
  induction fuel with
  | zero => intro id cw s s1 h; simp [insertionLoop] at h
  | succ fuel ih =>
    intro id cw s s1 h hinv
    rcases ht : insertionTry env id s with ⟨t, id1, b, s2⟩
    have key : (∀ e, t ≠ .escaped e) →
        ∃ id1, id1 ≠ [] ∧ s1.d_insertedChip = some (createdChip (chipType s) id1)
        ∧ (s.removalIdentifier ≠ [] → id1 = s.removalIdentifier)
        ∧ (s.removalIdentifier = [] → ∃ buf, buf ≠ []
            ∧ env.sendCommand (s1.probesSent - 1) = .reply buf
            ∧ id1 = processCardId env.formatHexString buf) := by
      intro hnt
      cases b with
      | true =>
        rw [insertionLoop_inserted env maxwait fuel cw id id1 s s2 t ht hnt] at h
        simp only [Option.some.injEq, Prod.mk.injEq, true_and] at h
        subst h
        exact ⟨id1, insertionTry_true env id id1 s s2 t ht hinv⟩
      | false =>
        obtain ⟨hr, hct, hst⟩ := insertionTry_false env id id1 s s2 t ht hnt hinv
        by_cases hc : maxwait = 0 ∨ (cw + 500) % 2 ^ 32 < maxwait
        · rw [insertionLoop_continue env maxwait fuel cw id id1 s s2 t ht hnt hc] at h
          obtain ⟨id2, h1, h2, h3, h4⟩ := ih id1 _ _ s1 h (by exact hst)
          have hty : chipType { s2 with ticks := s2.ticks + 1 } = chipType s := by
            simp [chipType, hct]
          rw [hty] at h2
          exact ⟨id2, h1, h2, fun hne => (h3 (by simpa [hr] using hne)).trans hr,
            fun h0 => h4 (by simpa [hr] using h0)⟩
        · rw [insertionLoop_timeout env maxwait fuel cw id id1 s s2 t ht hnt hc] at h
          simp at h
    cases t with
    | escaped e =>
      rw [insertionLoop_escaped env maxwait fuel cw id id1 s s2 e b ht] at h
      simp at h
    | completed => exact key completed_ne_escaped
    | swallowed => exact key swallowed_ne_escaped

/-- C15. Whenever `waitInsertion` returns true a chip is present afterwards: `isConnected` is
true and `getChipList` has exactly one element, the chip the factory made for the identifier
obtained in the call, which is the pending removal identifier when there was one on entry and
otherwise the normalized form of the non-empty reply read by the last probe of the call. -/
theorem waitInsertion_true_chip (env : Env) (maxwait fuel : Nat) (s s1 : Reader)
    (h : waitInsertion env maxwait fuel s = some (.returned true, s1)) :
    isConnected s1 = true ∧ (getChipList s1).length = 1
    ∧ ∃ id, id ≠ [] ∧ getChipList s1 = [createdChip (chipType s) id]
      ∧ (createdChip (chipType s) id).identifier = id
      ∧ (s.removalIdentifier ≠ [] → id = s.removalIdentifier)
      ∧ (s.removalIdentifier = [] → ∃ buf, buf ≠ []
          ∧ env.sendCommand (s1.probesSent - 1) = .reply buf
          ∧ id = processCardId env.formatHexString buf) := by
  rw [waitInsertion_eq] at h
  cases hl : insertionLoop env maxwait fuel [] 0
      (suppressLog s.settings.SeeWaitInsertionLog s) with
  | none => simp [hl] at h
  | some r =>
    obtain ⟨o, s2⟩ := r
    rw [hl] at h
    cases o with
    | thrown e => simp [insertionExit] at h
    | returned b =>
      simp only [Option.map_some', insertionExit, Option.some.injEq, Prod.mk.injEq,
        Outcome.returned.injEq] at h
      obtain ⟨hb, hs⟩ := h
      subst hb
      obtain ⟨id, h1, h2, h3, h4⟩ := insertionLoop_true env maxwait fuel [] 0 _ s2 hl
        (Or.inl rfl)
      have hchip : s1.d_insertedChip = some (createdChip (chipType s) id) := by
        rw [← hs]
        simpa [setLogEnabled] using h2
      have hprobes : s1.probesSent = s2.probesSent := by
        rw [← hs]
        rfl
      refine ⟨by simp [isConnected, hchip], by simp [getChipList, hchip], id, h1,
        by simp [getChipList, hchip], rfl, fun hne => ?_, fun h0 => ?_⟩
      · simpa using h3 (by simpa using hne)
      · rw [hprobes]
        exact h4 (by simpa using h0)

theorem waitInsertion_true_chip_witness :
    waitInsertion (envOfWire wire123) 500 1 idleReader = some (.returned true, insertedReader)
    ∧ isConnected insertedReader = true ∧ (getChipList insertedReader).length = 1
    ∧ getChipList insertedReader
        = [{ cardType := "GenericTag", identifier := [0, 0, 0, 0, 0, 123] }] :=
  have h := waitInsertion_true_chip (envOfWire wire123) 500 1 idleReader insertedReader rfl
  ⟨rfl, h.1, h.2.1, by decide⟩

end Gunnebo
